import Mathlib

/-
Verification development for the go-sudoku constraint-propagation engine.

The Go source models a Sudoku board as 81 candidate sets (one per square,
row-major indices 0..80).  The engine consists of the board topology built
by `New` (27 units, per-square unit lists and peer lists), the mutually
recursive propagation pair `assign`/`eliminate`, the parser `parseBoard`,
the solver `search` and the checker `isSolved`.

The candidate-set type `Digits` is used by the engine but its own source
file is not part of the sources at hand, so it is modelled from the spec
(a set of digits 1..9 with membership, insertion, removal, cardinality and
single-member queries).  Everything else is translated directly from the
Go functions.

The mutually recursive propagation is embedded with an explicit fuel
parameter (`assignF`, `elimF`, ...); termination of the Go recursion is
then a theorem: a fuel linear in the total candidate count of the board is
always sufficient (`claim_C4_termination`).  The fuel-saturated wrappers
`assign`, `eliminate`, `search` are the total functions the remaining
theorems talk about.
-/

/-- Modelled from the spec: the per-square candidate set ("Digits" in the
Go code, whose defining file is not among the sources) is a set of digits
1..9 supporting membership, add, remove, cardinality and single-member
queries. -/
abbrev Digits := Finset Nat

/-- Modelled from the spec: the full candidate set holding all digits 1..9. -/
def fullDigitsSet : Digits := {1, 2, 3, 4, 5, 6, 7, 8, 9}

/-- Modelled from the spec: "the single member" query of a candidate set;
its value is only contractually meaningful when the cardinality is 1. -/
def singleMemberDigit (ds : Digits) : Nat := ds.fold max 0 id

/-- Go `index`: linear index of a square from row and column. -/
def index (row col : Nat) : Nat := row * 9 + col

/-- One row unit, as built by the first loop of Go `New`. -/
def rowUnit (r : Nat) : List Nat := (List.range 9).map (fun c => index r c)

/-- One column unit, as built by the second loop of Go `New`. -/
def colUnit (c : Nat) : List Nat := (List.range 9).map (fun r => index r c)

/-- One 3x3 block unit, as built by the third loop of Go `New`. -/
def blockUnit (br bc : Nat) : List Nat :=
  ((List.range 3).map (fun r =>
    (List.range 3).map (fun c => index (br * 3 + r) (bc * 3 + c)))).flatten

/-- Go `New`: the list of all 27 units (9 rows, then 9 columns, then 9
blocks, in construction order). -/
def unitlist : List (List Nat) :=
  (List.range 9).map rowUnit ++ (List.range 9).map colUnit ++
    ((List.range 3).map (fun br =>
      (List.range 3).map (fun bc => blockUnit br bc))).flatten

/-- Go `New`: `units[i]`, the units that contain square `i`, collected by
scanning `unitlist`. -/
def unitsOf (i : Nat) : List (List Nat) := unitlist.filter (fun u => u.contains i)

/-- Go `New`: `peers[i]`, the deduplicated list of squares sharing a unit
with `i`, excluding `i` itself, in first-seen order. -/
def peersOf (i : Nat) : List Nat :=
  (unitsOf i).foldl
    (fun acc u =>
      u.foldl
        (fun acc2 c => if c ≠ i ∧ ¬ acc2.contains c then acc2 ++ [c] else acc2)
        acc)
    []

/-- Go `Values`: a board is an ordered collection of candidate sets. -/
abbrev Values := List Digits

/-- Reading square `i` of a board (out-of-range reads yield the empty set;
the Go code only ever indexes squares 0..80 of an 81-slice). -/
def vget (v : Values) (i : Nat) : Digits := v.getD i ∅

/-- Writing square `i` of a board (Go mutates the slice in place). -/
def vset (v : Values) (i : Nat) (ds : Digits) : Values := v.set i ds

/-- Go `emptyBoard`: every square can hold any digit. -/
def emptyBoard : Values := List.replicate 81 fullDigitsSet

/-- Total number of candidates across the whole board; the measure that
bounds the propagation recursion. -/
def totalCount (v : Values) : Nat := (v.map Finset.card).sum

/-- The digits 1..9 in the order the Go loops iterate them. -/
def digitsList : List Nat := [1, 2, 3, 4, 5, 6, 7, 8, 9]

mutual

/-- Go `assign` (fuelled): force `square` to hold `digit` by eliminating
every other candidate digit, short-circuiting on failure. -/
def assignF (fuel : Nat) (v : Values) (square digit : Nat) : Option (Bool × Values) :=
  match fuel with
  | 0 => none
  | f + 1 => assignLoopF f v square digit digitsList
termination_by structural fuel

/-- The `d = 1..9` loop inside Go `assign`. -/
def assignLoopF (fuel : Nat) (v : Values) (square digit : Nat) (ds : List Nat) :
    Option (Bool × Values) :=
  match fuel with
  | 0 => none
  | f + 1 =>
    match ds with
    | [] => some (true, v)
    | e :: es =>
      if e ∈ vget v square ∧ e ≠ digit then
        match elimF f v square e with
        | none => none
        | some (false, v2) => some (false, v2)
        | some (true, v2) => assignLoopF f v2 square digit es
      else assignLoopF f v square digit es
termination_by structural fuel

/-- Go `eliminate` (fuelled): remove `digit` from `square`'s candidates and
propagate: failure on empty square, peer elimination on forced singleton,
then the unit scan for forced placements of `digit`. -/
def elimF (fuel : Nat) (v : Values) (square digit : Nat) : Option (Bool × Values) :=
  match fuel with
  | 0 => none
  | f + 1 =>
    if digit ∈ vget v square then
      let v1 := vset v square ((vget v square).erase digit)
      if (vget v1 square).card = 0 then some (false, v1)
      else if (vget v1 square).card = 1 then
        match elimPeersF f v1 (peersOf square) (singleMemberDigit (vget v1 square)) with
        | none => none
        | some (false, v2) => some (false, v2)
        | some (true, v2) => elimUnitsF f v2 (unitsOf square) digit
      else elimUnitsF f v1 (unitsOf square) digit
    else some (true, v)
termination_by structural fuel

/-- The peer loop inside Go `eliminate` (case: square reduced to a single
candidate `rem`, which is eliminated from every peer). -/
def elimPeersF (fuel : Nat) (v : Values) (ps : List Nat) (rem : Nat) :
    Option (Bool × Values) :=
  match fuel with
  | 0 => none
  | f + 1 =>
    match ps with
    | [] => some (true, v)
    | p :: rest =>
      match elimF f v p rem with
      | none => none
      | some (false, v2) => some (false, v2)
      | some (true, v2) => elimPeersF f v2 rest rem
termination_by structural fuel

/-- The unit loop inside Go `eliminate`: for each unit of the square, the
squares still admitting `digit` are collected; none is a contradiction,
exactly one forces an assignment. -/
def elimUnitsF (fuel : Nat) (v : Values) (us : List (List Nat)) (digit : Nat) :
    Option (Bool × Values) :=
  match fuel with
  | 0 => none
  | f + 1 =>
    match us with
    | [] => some (true, v)
    | u :: rest =>
      let dplaces := u.filter (fun s => digit ∈ vget v s)
      if dplaces.length = 0 then some (false, v)
      else if dplaces.length = 1 then
        match assignF f v (dplaces.headD 0) digit with
        | none => none
        | some (false, v2) => some (false, v2)
        | some (true, v2) => elimUnitsF f v2 rest digit
      else elimUnitsF f v rest digit
termination_by structural fuel

end

/-- Fuel that always suffices for `assignF`/`elimF` (proved below). -/
def propFuel (v : Values) : Nat := 100 * totalCount v + 100

/-- Go `assign`, as a total function (the fuel never runs out). -/
def assign (v : Values) (square digit : Nat) : Bool × Values :=
  (assignF (propFuel v) v square digit).getD (false, v)

/-- Go `eliminate`, as a total function (the fuel never runs out). -/
def eliminate (v : Values) (square digit : Nat) : Bool × Values :=
  (elimF (propFuel v) v square digit).getD (false, v)

/-- The per-unit loop body of Go `isSolved`: every square of the unit must
hold exactly one candidate, and together they must cover `fullDigitsSet`. -/
def unitSolvedLoop (v : Values) (u : List Nat) (dset : Digits) : Bool :=
  match u with
  | [] => dset == fullDigitsSet
  | s :: rest =>
    if (vget v s).card ≠ 1 then false
    else unitSolvedLoop v rest (insert (singleMemberDigit (vget v s)) dset)

/-- Go `isSolved`. -/
def isSolved (v : Values) : Bool := unitlist.all (fun u => unitSolvedLoop v u ∅)

/-- The rune filter of Go `parseBoard`: ASCII digits map to their value,
`'.'` maps to 0, everything else is discarded. -/
def runeDigit (c : Char) : Option Nat :=
  if '0' ≤ c ∧ c ≤ '9' then some (c.toNat - '0'.toNat)
  else if c = '.' then some 0 else none

/-- The digit sequence Go `parseBoard` extracts from the input. -/
def parseDigitsOf (s : List Char) : List Nat := s.filterMap runeDigit

/-- The assignment loop of Go `parseBoard`: every non-zero parsed digit is
assigned to its square, aborting on contradiction. -/
def assignAll (v : Values) : List (Nat × Nat) → Option Values
  | [] => some v
  | (sq, d) :: rest =>
    if d ≠ 0 then
      match assign v sq d with
      | (true, v2) => assignAll v2 rest
      | (false, _) => none
    else assignAll v rest

/-- Go `parseBoard`: filter the runes, require exactly 81 of them, then
assign all given digits onto an empty board. `none` models the Go error
returns. -/
def parseBoard (s : List Char) : Option Values :=
  let dgs := parseDigitsOf s
  if dgs.length ≠ 81 then none
  else assignAll emptyBoard dgs.enum

/-- One step of the square-selection scan of Go `search` (accumulator is
the pair `(squareToTry, minSize)`, starting from `(-1, 9)`). -/
def selectStep (v : Values) (acc : Int × Nat) (sq : Nat) : Int × Nat :=
  if 1 < (vget v sq).card ∧ (vget v sq).card < acc.2
  then ((sq : Int), (vget v sq).card) else acc

/-- The square-selection scan of Go `search`. -/
def selectSquare (v : Values) : Int × Nat :=
  (List.range v.length).foldl (selectStep v) (-1, 9)

mutual

/-- Go `search` (fuelled): pick a square by the scan; if none was picked
report terminal success, otherwise try its digits in ascending order. -/
def searchF (fuel : Nat) (v : Values) : Option (Values × Bool) :=
  match fuel with
  | 0 => none
  | f + 1 =>
    if (selectSquare v).1 < 0 then some (v, true)
    else searchLoopF f v (selectSquare v).1.toNat digitsList
termination_by structural fuel

/-- The digit loop of Go `search`: for each candidate digit, assign it on a
copy and recurse; first success wins, failures fall through to the next
digit; exhaustion returns the input board with failure. -/
def searchLoopF (fuel : Nat) (v : Values) (square : Nat) (ds : List Nat) :
    Option (Values × Bool) :=
  match fuel with
  | 0 => none
  | f + 1 =>
    match ds with
    | [] => some (v, false)
    | d :: rest =>
      if d ∈ vget v square then
        match assign v square d with
        | (true, v2) =>
          match searchF f v2 with
          | none => none
          | some (vres, true) => some (vres, true)
          | some (_, false) => searchLoopF f v square rest
        | (false, _) => searchLoopF f v square rest
      else searchLoopF f v square rest
termination_by structural fuel

end

/-- Fuel that always suffices for `searchF` on well-formed boards (proved
below). -/
def searchFuel (v : Values) : Nat := 12 * totalCount v + 11

/-- Go `search`, as a total function. -/
def search (v : Values) : Values × Bool :=
  (searchF (searchFuel v) v).getD (v, false)

set_option maxRecDepth 100000

/-- The peer lists of all 81 squares, as computed by the construction in
Go `New` (proved equal to `peersOf` below). -/
def peersTable : List (List Nat) :=
  [[1, 2, 3, 4, 5, 6, 7, 8, 9, 18, 27, 36, 45, 54, 63, 72, 10, 11, 19, 20],
 [0, 2, 3, 4, 5, 6, 7, 8, 10, 19, 28, 37, 46, 55, 64, 73, 9, 11, 18, 20],
 [0, 1, 3, 4, 5, 6, 7, 8, 11, 20, 29, 38, 47, 56, 65, 74, 9, 10, 18, 19],
 [0, 1, 2, 4, 5, 6, 7, 8, 12, 21, 30, 39, 48, 57, 66, 75, 13, 14, 22, 23],
 [0, 1, 2, 3, 5, 6, 7, 8, 13, 22, 31, 40, 49, 58, 67, 76, 12, 14, 21, 23],
 [0, 1, 2, 3, 4, 6, 7, 8, 14, 23, 32, 41, 50, 59, 68, 77, 12, 13, 21, 22],
 [0, 1, 2, 3, 4, 5, 7, 8, 15, 24, 33, 42, 51, 60, 69, 78, 16, 17, 25, 26],
 [0, 1, 2, 3, 4, 5, 6, 8, 16, 25, 34, 43, 52, 61, 70, 79, 15, 17, 24, 26],
 [0, 1, 2, 3, 4, 5, 6, 7, 17, 26, 35, 44, 53, 62, 71, 80, 15, 16, 24, 25],
 [10, 11, 12, 13, 14, 15, 16, 17, 0, 18, 27, 36, 45, 54, 63, 72, 1, 2, 19, 20],
 [9, 11, 12, 13, 14, 15, 16, 17, 1, 19, 28, 37, 46, 55, 64, 73, 0, 2, 18, 20],
 [9, 10, 12, 13, 14, 15, 16, 17, 2, 20, 29, 38, 47, 56, 65, 74, 0, 1, 18, 19],
 [9, 10, 11, 13, 14, 15, 16, 17, 3, 21, 30, 39, 48, 57, 66, 75, 4, 5, 22, 23],
 [9, 10, 11, 12, 14, 15, 16, 17, 4, 22, 31, 40, 49, 58, 67, 76, 3, 5, 21, 23],
 [9, 10, 11, 12, 13, 15, 16, 17, 5, 23, 32, 41, 50, 59, 68, 77, 3, 4, 21, 22],
 [9, 10, 11, 12, 13, 14, 16, 17, 6, 24, 33, 42, 51, 60, 69, 78, 7, 8, 25, 26],
 [9, 10, 11, 12, 13, 14, 15, 17, 7, 25, 34, 43, 52, 61, 70, 79, 6, 8, 24, 26],
 [9, 10, 11, 12, 13, 14, 15, 16, 8, 26, 35, 44, 53, 62, 71, 80, 6, 7, 24, 25],
 [19, 20, 21, 22, 23, 24, 25, 26, 0, 9, 27, 36, 45, 54, 63, 72, 1, 2, 10, 11],
 [18, 20, 21, 22, 23, 24, 25, 26, 1, 10, 28, 37, 46, 55, 64, 73, 0, 2, 9, 11],
 [18, 19, 21, 22, 23, 24, 25, 26, 2, 11, 29, 38, 47, 56, 65, 74, 0, 1, 9, 10],
 [18, 19, 20, 22, 23, 24, 25, 26, 3, 12, 30, 39, 48, 57, 66, 75, 4, 5, 13, 14],
 [18, 19, 20, 21, 23, 24, 25, 26, 4, 13, 31, 40, 49, 58, 67, 76, 3, 5, 12, 14],
 [18, 19, 20, 21, 22, 24, 25, 26, 5, 14, 32, 41, 50, 59, 68, 77, 3, 4, 12, 13],
 [18, 19, 20, 21, 22, 23, 25, 26, 6, 15, 33, 42, 51, 60, 69, 78, 7, 8, 16, 17],
 [18, 19, 20, 21, 22, 23, 24, 26, 7, 16, 34, 43, 52, 61, 70, 79, 6, 8, 15, 17],
 [18, 19, 20, 21, 22, 23, 24, 25, 8, 17, 35, 44, 53, 62, 71, 80, 6, 7, 15, 16],
 [28, 29, 30, 31, 32, 33, 34, 35, 0, 9, 18, 36, 45, 54, 63, 72, 37, 38, 46, 47],
 [27, 29, 30, 31, 32, 33, 34, 35, 1, 10, 19, 37, 46, 55, 64, 73, 36, 38, 45, 47],
 [27, 28, 30, 31, 32, 33, 34, 35, 2, 11, 20, 38, 47, 56, 65, 74, 36, 37, 45, 46],
 [27, 28, 29, 31, 32, 33, 34, 35, 3, 12, 21, 39, 48, 57, 66, 75, 40, 41, 49, 50],
 [27, 28, 29, 30, 32, 33, 34, 35, 4, 13, 22, 40, 49, 58, 67, 76, 39, 41, 48, 50],
 [27, 28, 29, 30, 31, 33, 34, 35, 5, 14, 23, 41, 50, 59, 68, 77, 39, 40, 48, 49],
 [27, 28, 29, 30, 31, 32, 34, 35, 6, 15, 24, 42, 51, 60, 69, 78, 43, 44, 52, 53],
 [27, 28, 29, 30, 31, 32, 33, 35, 7, 16, 25, 43, 52, 61, 70, 79, 42, 44, 51, 53],
 [27, 28, 29, 30, 31, 32, 33, 34, 8, 17, 26, 44, 53, 62, 71, 80, 42, 43, 51, 52],
 [37, 38, 39, 40, 41, 42, 43, 44, 0, 9, 18, 27, 45, 54, 63, 72, 28, 29, 46, 47],
 [36, 38, 39, 40, 41, 42, 43, 44, 1, 10, 19, 28, 46, 55, 64, 73, 27, 29, 45, 47],
 [36, 37, 39, 40, 41, 42, 43, 44, 2, 11, 20, 29, 47, 56, 65, 74, 27, 28, 45, 46],
 [36, 37, 38, 40, 41, 42, 43, 44, 3, 12, 21, 30, 48, 57, 66, 75, 31, 32, 49, 50],
 [36, 37, 38, 39, 41, 42, 43, 44, 4, 13, 22, 31, 49, 58, 67, 76, 30, 32, 48, 50],
 [36, 37, 38, 39, 40, 42, 43, 44, 5, 14, 23, 32, 50, 59, 68, 77, 30, 31, 48, 49],
 [36, 37, 38, 39, 40, 41, 43, 44, 6, 15, 24, 33, 51, 60, 69, 78, 34, 35, 52, 53],
 [36, 37, 38, 39, 40, 41, 42, 44, 7, 16, 25, 34, 52, 61, 70, 79, 33, 35, 51, 53],
 [36, 37, 38, 39, 40, 41, 42, 43, 8, 17, 26, 35, 53, 62, 71, 80, 33, 34, 51, 52],
 [46, 47, 48, 49, 50, 51, 52, 53, 0, 9, 18, 27, 36, 54, 63, 72, 28, 29, 37, 38],
 [45, 47, 48, 49, 50, 51, 52, 53, 1, 10, 19, 28, 37, 55, 64, 73, 27, 29, 36, 38],
 [45, 46, 48, 49, 50, 51, 52, 53, 2, 11, 20, 29, 38, 56, 65, 74, 27, 28, 36, 37],
 [45, 46, 47, 49, 50, 51, 52, 53, 3, 12, 21, 30, 39, 57, 66, 75, 31, 32, 40, 41],
 [45, 46, 47, 48, 50, 51, 52, 53, 4, 13, 22, 31, 40, 58, 67, 76, 30, 32, 39, 41],
 [45, 46, 47, 48, 49, 51, 52, 53, 5, 14, 23, 32, 41, 59, 68, 77, 30, 31, 39, 40],
 [45, 46, 47, 48, 49, 50, 52, 53, 6, 15, 24, 33, 42, 60, 69, 78, 34, 35, 43, 44],
 [45, 46, 47, 48, 49, 50, 51, 53, 7, 16, 25, 34, 43, 61, 70, 79, 33, 35, 42, 44],
 [45, 46, 47, 48, 49, 50, 51, 52, 8, 17, 26, 35, 44, 62, 71, 80, 33, 34, 42, 43],
 [55, 56, 57, 58, 59, 60, 61, 62, 0, 9, 18, 27, 36, 45, 63, 72, 64, 65, 73, 74],
 [54, 56, 57, 58, 59, 60, 61, 62, 1, 10, 19, 28, 37, 46, 64, 73, 63, 65, 72, 74],
 [54, 55, 57, 58, 59, 60, 61, 62, 2, 11, 20, 29, 38, 47, 65, 74, 63, 64, 72, 73],
 [54, 55, 56, 58, 59, 60, 61, 62, 3, 12, 21, 30, 39, 48, 66, 75, 67, 68, 76, 77],
 [54, 55, 56, 57, 59, 60, 61, 62, 4, 13, 22, 31, 40, 49, 67, 76, 66, 68, 75, 77],
 [54, 55, 56, 57, 58, 60, 61, 62, 5, 14, 23, 32, 41, 50, 68, 77, 66, 67, 75, 76],
 [54, 55, 56, 57, 58, 59, 61, 62, 6, 15, 24, 33, 42, 51, 69, 78, 70, 71, 79, 80],
 [54, 55, 56, 57, 58, 59, 60, 62, 7, 16, 25, 34, 43, 52, 70, 79, 69, 71, 78, 80],
 [54, 55, 56, 57, 58, 59, 60, 61, 8, 17, 26, 35, 44, 53, 71, 80, 69, 70, 78, 79],
 [64, 65, 66, 67, 68, 69, 70, 71, 0, 9, 18, 27, 36, 45, 54, 72, 55, 56, 73, 74],
 [63, 65, 66, 67, 68, 69, 70, 71, 1, 10, 19, 28, 37, 46, 55, 73, 54, 56, 72, 74],
 [63, 64, 66, 67, 68, 69, 70, 71, 2, 11, 20, 29, 38, 47, 56, 74, 54, 55, 72, 73],
 [63, 64, 65, 67, 68, 69, 70, 71, 3, 12, 21, 30, 39, 48, 57, 75, 58, 59, 76, 77],
 [63, 64, 65, 66, 68, 69, 70, 71, 4, 13, 22, 31, 40, 49, 58, 76, 57, 59, 75, 77],
 [63, 64, 65, 66, 67, 69, 70, 71, 5, 14, 23, 32, 41, 50, 59, 77, 57, 58, 75, 76],
 [63, 64, 65, 66, 67, 68, 70, 71, 6, 15, 24, 33, 42, 51, 60, 78, 61, 62, 79, 80],
 [63, 64, 65, 66, 67, 68, 69, 71, 7, 16, 25, 34, 43, 52, 61, 79, 60, 62, 78, 80],
 [63, 64, 65, 66, 67, 68, 69, 70, 8, 17, 26, 35, 44, 53, 62, 80, 60, 61, 78, 79],
 [73, 74, 75, 76, 77, 78, 79, 80, 0, 9, 18, 27, 36, 45, 54, 63, 55, 56, 64, 65],
 [72, 74, 75, 76, 77, 78, 79, 80, 1, 10, 19, 28, 37, 46, 55, 64, 54, 56, 63, 65],
 [72, 73, 75, 76, 77, 78, 79, 80, 2, 11, 20, 29, 38, 47, 56, 65, 54, 55, 63, 64],
 [72, 73, 74, 76, 77, 78, 79, 80, 3, 12, 21, 30, 39, 48, 57, 66, 58, 59, 67, 68],
 [72, 73, 74, 75, 77, 78, 79, 80, 4, 13, 22, 31, 40, 49, 58, 67, 57, 59, 66, 68],
 [72, 73, 74, 75, 76, 78, 79, 80, 5, 14, 23, 32, 41, 50, 59, 68, 57, 58, 66, 67],
 [72, 73, 74, 75, 76, 77, 79, 80, 6, 15, 24, 33, 42, 51, 60, 69, 61, 62, 70, 71],
 [72, 73, 74, 75, 76, 77, 78, 80, 7, 16, 25, 34, 43, 52, 61, 70, 60, 62, 69, 71],
 [72, 73, 74, 75, 76, 77, 78, 79, 8, 17, 26, 35, 44, 53, 62, 71, 60, 61, 69, 70]]

/-- The 81 computed peer lists agree with the table. -/
theorem peersOf_map_eq_table : (List.range 81).map peersOf = peersTable := by decide

theorem peersOf_eq_table {i : Nat} (h : i < 81) : peersOf i = peersTable.getD i [] := by
  have hm : ((List.range 81).map peersOf)[i]? = some (peersOf i) := by
    rw [List.getElem?_map, List.getElem?_range h]
    rfl
  rw [peersOf_map_eq_table] at hm
  simp [List.getD, List.get?_eq_getElem?, hm]

theorem unitlist_length : unitlist.length = 27 := by decide

theorem unit_members_lt (u : List Nat) (hu : u ∈ unitlist) : ∀ x ∈ u, x < 81 := by
  revert hu
  revert u
  decide

theorem unitsOf_length_of_lt {i : Nat} (h : i < 81) : (unitsOf i).length = 3 := by
  revert h
  revert i
  decide

theorem unitsOf_nil_of_ge {i : Nat} (h : 81 ≤ i) : unitsOf i = [] := by
  apply List.filter_eq_nil_iff.2
  intro u hu
  simp only [Bool.not_eq_true, List.contains_eq_any_beq, List.any_eq_false]
  intro x hx
  have := unit_members_lt u hu x hx
  simp only [beq_eq_false_iff_ne, ne_eq]
  omega

theorem unitsOf_length_le (i : Nat) : (unitsOf i).length ≤ 3 := by
  rcases Nat.lt_or_ge i 81 with h | h
  · exact (unitsOf_length_of_lt h).le
  · simp [unitsOf_nil_of_ge h]

theorem peersOf_nil_of_ge {i : Nat} (h : 81 ≤ i) : peersOf i = [] := by
  unfold peersOf
  rw [unitsOf_nil_of_ge h]
  rfl

theorem peersTable_lists : ∀ l ∈ peersTable, l.length = 20 ∧ l.Nodup ∧ ∀ x ∈ l, x < 81 := by
  decide

theorem peersTable_getD_mem {i : Nat} (h : i < 81) : peersTable.getD i [] ∈ peersTable := by
  have hlen : i < peersTable.length := by
    have : peersTable.length = 81 := by decide
    omega
  rw [List.getD_eq_getElem _ _ hlen]
  exact List.getElem_mem hlen

theorem peersOf_length_of_lt {i : Nat} (h : i < 81) : (peersOf i).length = 20 := by
  rw [peersOf_eq_table h]
  exact (peersTable_lists _ (peersTable_getD_mem h)).1

theorem peersOf_length_le (i : Nat) : (peersOf i).length ≤ 20 := by
  rcases Nat.lt_or_ge i 81 with h | h
  · exact (peersOf_length_of_lt h).le
  · simp [peersOf_nil_of_ge h]

theorem peersOf_nodup_of_lt {i : Nat} (h : i < 81) : (peersOf i).Nodup := by
  rw [peersOf_eq_table h]
  exact (peersTable_lists _ (peersTable_getD_mem h)).2.1

theorem peersTable_not_self : ∀ i, i < 81 → i ∉ peersTable.getD i [] := by decide

theorem peersOf_not_self {i : Nat} (h : i < 81) : i ∉ peersOf i := by
  rw [peersOf_eq_table h]
  exact peersTable_not_self i h

theorem peersTable_symm : ∀ i, i < 81 → ∀ j ∈ peersTable.getD i [], i ∈ peersTable.getD j [] :=
  by decide

theorem peersOf_symm_dir {i j : Nat} (hi : i < 81) (hj : j ∈ peersOf i) : i ∈ peersOf j := by
  rw [peersOf_eq_table hi] at hj
  have hj81 : j < 81 := (peersTable_lists _ (peersTable_getD_mem hi)).2.2 j hj
  rw [peersOf_eq_table hj81]
  exact peersTable_symm i hi j hj

theorem vset_length (v : Values) (i : Nat) (ds : Digits) :
    (vset v i ds).length = v.length := List.length_set v i ds

theorem vget_nil (i : Nat) : vget [] i = ∅ := by cases i <;> rfl

theorem vget_cons_zero (a : Digits) (l : Values) : vget (a :: l) 0 = a := rfl

theorem vget_cons_succ (a : Digits) (l : Values) (i : Nat) :
    vget (a :: l) (i + 1) = vget l i := rfl

theorem vget_of_ge {v : Values} {i : Nat} (h : v.length ≤ i) : vget v i = ∅ := by
  induction v generalizing i with
  | nil => exact vget_nil i
  | cons a l ih =>
    cases i with
    | zero => simp at h
    | succ j =>
      rw [vget_cons_succ]
      exact ih (by simpa using h)

theorem mem_vget_lt {v : Values} {i d : Nat} (h : d ∈ vget v i) : i < v.length := by
  by_contra hc
  rw [vget_of_ge (Nat.le_of_not_lt hc)] at h
  simp at h

theorem vget_vset_self {v : Values} {i : Nat} (h : i < v.length) (ds : Digits) :
    vget (vset v i ds) i = ds := by
  induction v generalizing i with
  | nil => simp at h
  | cons a l ih =>
    cases i with
    | zero => rfl
    | succ j =>
      show vget (a :: l.set j ds) (j + 1) = ds
      rw [vget_cons_succ]
      exact ih (by simpa using h) 

theorem vget_vset_ne (v : Values) {i j : Nat} (h : j ≠ i) (ds : Digits) :
    vget (vset v i ds) j = vget v j := by
  induction v generalizing i j with
  | nil => rfl
  | cons a l ih =>
    cases i with
    | zero =>
      cases j with
      | zero => exact absurd rfl h
      | succ k => rfl
    | succ i2 =>
      cases j with
      | zero => rfl
      | succ k =>
        show vget (a :: l.set i2 ds) (k + 1) = vget (a :: l) (k + 1)
        rw [vget_cons_succ, vget_cons_succ]
        exact ih (fun he => h (by omega)) 

theorem vset_of_ge {v : Values} {i : Nat} (h : v.length ≤ i) (ds : Digits) :
    vset v i ds = v := by
  induction v generalizing i with
  | nil => rfl
  | cons a l ih =>
    cases i with
    | zero => simp at h
    | succ j =>
      show a :: l.set j ds = a :: l
      have : vset l j ds = l := ih (by simpa using h)
      rw [show l.set j ds = vset l j ds from rfl, this]

/-- Pointwise refinement between boards: same shape and every square's
candidate set shrank (or stayed). -/
def sub1 (w v : Values) : Prop := w.length = v.length ∧ ∀ i, vget w i ⊆ vget v i

theorem sub1_refl (v : Values) : sub1 v v := ⟨rfl, fun _ => Finset.Subset.refl _⟩

theorem sub1_trans {u w v : Values} (h1 : sub1 u w) (h2 : sub1 w v) : sub1 u v :=
  ⟨h1.1.trans h2.1, fun i => (h1.2 i).trans (h2.2 i)⟩

theorem sub1_set_erase (v : Values) (sq d : Nat) :
    sub1 (vset v sq ((vget v sq).erase d)) v := by
  refine ⟨vset_length v sq _, fun i => ?_⟩
  rcases Nat.lt_or_ge sq v.length with hlt | hge
  · rcases eq_or_ne i sq with rfl | hne
    · rw [vget_vset_self hlt]
      exact Finset.erase_subset d _
    · rw [vget_vset_ne v hne]
  · rw [vset_of_ge hge]

theorem totalCount_nil : totalCount [] = 0 := rfl

theorem totalCount_cons (a : Digits) (l : Values) :
    totalCount (a :: l) = a.card + totalCount l := by simp [totalCount]

theorem totalCount_le_of_sub1 : ∀ {w v : Values}, sub1 w v → totalCount w ≤ totalCount v := by
  intro w
  induction w with
  | nil =>
    intro v h
    cases v with
    | nil => exact le_rfl
    | cons b l => simp [sub1] at h
  | cons a wt ih =>
    intro v h
    cases v with
    | nil => simp [sub1] at h
    | cons b vt =>
      rw [totalCount_cons, totalCount_cons]
      have hhead : a ⊆ b := h.2 0
      have htail : sub1 wt vt :=
        ⟨by simpa using h.1, fun i => h.2 (i + 1)⟩
      exact Nat.add_le_add (Finset.card_le_card hhead) (ih htail)

theorem totalCount_lt_of_sub1 :
    ∀ {w v : Values}, sub1 w v → ∀ {j : Nat},
      (vget w j).card < (vget v j).card → totalCount w < totalCount v := by
  intro w
  induction w with
  | nil =>
    intro v h j hj
    cases v with
    | nil => rw [vget_nil] at hj; simp at hj
    | cons b l => simp [sub1] at h
  | cons a wt ih =>
    intro v h j hj
    cases v with
    | nil => simp [sub1] at h
    | cons b vt =>
      rw [totalCount_cons, totalCount_cons]
      have htail : sub1 wt vt := ⟨by simpa using h.1, fun i => h.2 (i + 1)⟩
      cases j with
      | zero =>
        rw [vget_cons_zero, vget_cons_zero] at hj
        exact Nat.add_lt_add_of_lt_of_le hj (totalCount_le_of_sub1 htail)
      | succ k =>
        rw [vget_cons_succ, vget_cons_succ] at hj
        exact Nat.add_lt_add_of_le_of_lt (Finset.card_le_card (h.2 0)) (ih htail hj)

theorem totalCount_erase_lt {v : Values} {sq d : Nat} (h : d ∈ vget v sq) :
    totalCount (vset v sq ((vget v sq).erase d)) < totalCount v := by
  have hlt : sq < v.length := mem_vget_lt h
  apply totalCount_lt_of_sub1 (sub1_set_erase v sq d)
  rw [vget_vset_self hlt]
  exact Finset.card_erase_lt_of_mem h

/-- The Go `if !call(...) { return false }` chaining pattern: a failed or
fuel-exhausted sub-call aborts, a successful one continues on the mutated
board. -/
def andThen (r : Option (Bool × Values)) (k : Values → Option (Bool × Values)) :
    Option (Bool × Values) :=
  match r with
  | none => none
  | some (false, v2) => some (false, v2)
  | some (true, v2) => k v2

theorem andThen_eq_some {r : Option (Bool × Values)} {k : Values → Option (Bool × Values)}
    {b : Bool} {w : Values} (h : andThen r k = some (b, w)) :
    (b = false ∧ r = some (false, w)) ∨ ∃ v2, r = some (true, v2) ∧ k v2 = some (b, w) := by
  match r with
  | none => simp [andThen] at h
  | some (false, v2) =>
    simp only [andThen] at h
    injection h with h2
    injection h2 with hb hv
    subst hb
    subst hv
    exact Or.inl ⟨rfl, rfl⟩
  | some (true, v2) =>
    exact Or.inr ⟨v2, rfl, h⟩

theorem andThen_ne_none {r : Option (Bool × Values)} {k : Values → Option (Bool × Values)}
    (hr : r ≠ none) (hk : ∀ v2, r = some (true, v2) → k v2 ≠ none) :
    andThen r k ≠ none := by
  match hre : r with
  | none => exact absurd rfl hr
  | some (false, v2) => simp [andThen]
  | some (true, v2) =>
    simp only [andThen]
    exact hk v2 rfl

theorem assignF_succ (f : Nat) (v : Values) (sq d : Nat) :
    assignF (f + 1) v sq d = assignLoopF f v sq d digitsList := rfl

theorem assignLoopF_nil (f : Nat) (v : Values) (sq d : Nat) :
    assignLoopF (f + 1) v sq d [] = some (true, v) := rfl

theorem assignLoopF_cons_mem {v : Values} {sq d e : Nat} (f : Nat) (es : List Nat)
    (hc : e ∈ vget v sq ∧ e ≠ d) :
    assignLoopF (f + 1) v sq d (e :: es) =
      andThen (elimF f v sq e) (fun v2 => assignLoopF f v2 sq d es) := by
  show (if e ∈ vget v sq ∧ e ≠ d then _ else _) = _
  rw [if_pos hc]
  cases elimF f v sq e with
  | none => rfl
  | some r => rcases r with ⟨b2, v2⟩; cases b2 <;> rfl

theorem assignLoopF_cons_skip {v : Values} {sq d e : Nat} (f : Nat) (es : List Nat)
    (hc : ¬(e ∈ vget v sq ∧ e ≠ d)) :
    assignLoopF (f + 1) v sq d (e :: es) = assignLoopF f v sq d es := by
  show (if e ∈ vget v sq ∧ e ≠ d then _ else _) = _
  rw [if_neg hc]

theorem elimF_notMem {v : Values} {sq d : Nat} (f : Nat) (h : d ∉ vget v sq) :
    elimF (f + 1) v sq d = some (true, v) := by
  show (if d ∈ vget v sq then _ else _) = _
  rw [if_neg h]

theorem elimF_mem_card0 {v : Values} {sq d : Nat} (f : Nat) (h : d ∈ vget v sq)
    (h0 : (vget (vset v sq ((vget v sq).erase d)) sq).card = 0) :
    elimF (f + 1) v sq d = some (false, vset v sq ((vget v sq).erase d)) := by
  show (if d ∈ vget v sq then _ else _) = _
  rw [if_pos h]
  simp [h0]

theorem elimF_mem_card1 {v : Values} {sq d : Nat} (f : Nat) (h : d ∈ vget v sq)
    (h1 : (vget (vset v sq ((vget v sq).erase d)) sq).card = 1) :
    elimF (f + 1) v sq d =
      andThen
        (elimPeersF f (vset v sq ((vget v sq).erase d)) (peersOf sq)
          (singleMemberDigit (vget (vset v sq ((vget v sq).erase d)) sq)))
        (fun v2 => elimUnitsF f v2 (unitsOf sq) d) := by
  show (if d ∈ vget v sq then _ else _) = _
  rw [if_pos h]
  have hne0 : ¬((vget (vset v sq ((vget v sq).erase d)) sq).card = 0) := by omega
  simp only [hne0, if_neg, if_false, h1, if_pos, if_true]
  cases elimPeersF f (vset v sq ((vget v sq).erase d)) (peersOf sq)
      (singleMemberDigit (vget (vset v sq ((vget v sq).erase d)) sq)) with
  | none => rfl
  | some r => rcases r with ⟨b2, v2⟩; cases b2 <;> rfl

theorem elimF_mem_cardN {v : Values} {sq d : Nat} (f : Nat) (h : d ∈ vget v sq)
    (h0 : (vget (vset v sq ((vget v sq).erase d)) sq).card ≠ 0)
    (h1 : (vget (vset v sq ((vget v sq).erase d)) sq).card ≠ 1) :
    elimF (f + 1) v sq d =
      elimUnitsF f (vset v sq ((vget v sq).erase d)) (unitsOf sq) d := by
  show (if d ∈ vget v sq then _ else _) = _
  rw [if_pos h]
  simp only [h0, h1, if_neg, if_false]

theorem elimPeersF_nil (f : Nat) (v : Values) (rem : Nat) :
    elimPeersF (f + 1) v [] rem = some (true, v) := rfl

theorem elimPeersF_cons (f : Nat) (v : Values) (p : Nat) (rest : List Nat) (rem : Nat) :
    elimPeersF (f + 1) v (p :: rest) rem =
      andThen (elimF f v p rem) (fun v2 => elimPeersF f v2 rest rem) := by
  show (match elimF f v p rem with
    | none => none
    | some (false, v2) => some (false, v2)
    | some (true, v2) => elimPeersF f v2 rest rem) = _
  cases elimF f v p rem with
  | none => rfl
  | some r => rcases r with ⟨b2, v2⟩; cases b2 <;> rfl

theorem elimUnitsF_nil (f : Nat) (v : Values) (d : Nat) :
    elimUnitsF (f + 1) v [] d = some (true, v) := rfl

theorem elimUnitsF_cons_none {v : Values} {u : List Nat} {d : Nat} (f : Nat)
    (rest : List (List Nat)) (h : (u.filter (fun s => d ∈ vget v s)).length = 0) :
    elimUnitsF (f + 1) v (u :: rest) d = some (false, v) := by
  show (if (u.filter (fun s => decide (d ∈ vget v s))).length = 0 then _ else _) = _
  rw [if_pos (by simpa using h)]

theorem elimUnitsF_cons_one {v : Values} {u : List Nat} {d : Nat} (f : Nat)
    (rest : List (List Nat)) (h : (u.filter (fun s => d ∈ vget v s)).length = 1) :
    elimUnitsF (f + 1) v (u :: rest) d =
      andThen (assignF f v ((u.filter (fun s => d ∈ vget v s)).headD 0) d)
        (fun v2 => elimUnitsF f v2 rest d) := by
  have h0 : ¬((u.filter (fun s => decide (d ∈ vget v s))).length = 0) := by
    intro hh
    omega
  show (if (u.filter (fun s => decide (d ∈ vget v s))).length = 0 then _ else _) = _
  rw [if_neg h0, if_pos (by simpa using h)]
  cases assignF f v ((u.filter (fun s => decide (d ∈ vget v s))).headD 0) d with
  | none => rfl
  | some r => rcases r with ⟨b2, v2⟩; cases b2 <;> rfl

theorem elimUnitsF_cons_many {v : Values} {u : List Nat} {d : Nat} (f : Nat)
    (rest : List (List Nat)) (h0 : (u.filter (fun s => d ∈ vget v s)).length ≠ 0)
    (h1 : (u.filter (fun s => d ∈ vget v s)).length ≠ 1) :
    elimUnitsF (f + 1) v (u :: rest) d = elimUnitsF f v rest d := by
  show (if (u.filter (fun s => decide (d ∈ vget v s))).length = 0 then _ else _) = _
  rw [if_neg (by simpa using h0), if_neg (by simpa using h1)]

theorem some_pair_inj {b b2 : Bool} {v w : Values} (h : some (b2, v) = some (b, w)) :
    b2 = b ∧ v = w := by
  injection h with h2
  injection h2 with hb hv
  exact ⟨hb, hv⟩

theorem sub1_of_andThen {r : Option (Bool × Values)} {k : Values → Option (Bool × Values)}
    {b : Bool} {w v : Values} (h : andThen r k = some (b, w))
    (hr : ∀ b2 v2, r = some (b2, v2) → sub1 v2 v)
    (hk : ∀ v2 b3 w3, r = some (true, v2) → k v2 = some (b3, w3) → sub1 w3 v2) :
    sub1 w v := by
  rcases andThen_eq_some h with ⟨hb, hre⟩ | ⟨v2, hre, hke⟩
  · exact hr false w hre
  · exact sub1_trans (hk v2 b w hre hke) (hr true v2 hre)

/-- Propagation never enlarges any candidate set: any completed
`assign`/`eliminate` call (including the internal loops), successful or
not, yields a board pointwise contained in its input. -/
theorem prop_sub1 : ∀ fuel : Nat,
    (∀ v sq d b w, assignF fuel v sq d = some (b, w) → sub1 w v) ∧
    (∀ v sq d ds b w, assignLoopF fuel v sq d ds = some (b, w) → sub1 w v) ∧
    (∀ v sq d b w, elimF fuel v sq d = some (b, w) → sub1 w v) ∧
    (∀ v ps rem b w, elimPeersF fuel v ps rem = some (b, w) → sub1 w v) ∧
    (∀ v us d b w, elimUnitsF fuel v us d = some (b, w) → sub1 w v) := by
  intro fuel
  induction fuel with
  | zero =>
    refine ⟨?_, ?_, ?_, ?_, ?_⟩
    · intro v sq d b w h; simp [assignF] at h
    · intro v sq d ds b w h; simp [assignLoopF] at h
    · intro v sq d b w h; simp [elimF] at h
    · intro v ps rem b w h; simp [elimPeersF] at h
    · intro v us d b w h; simp [elimUnitsF] at h
  | succ f ih =>
    obtain ⟨ihA, ihL, ihE, ihP, ihU⟩ := ih
    refine ⟨?_, ?_, ?_, ?_, ?_⟩
    · intro v sq d b w h
      rw [assignF_succ] at h
      exact ihL _ _ _ _ _ _ h
    · intro v sq d ds b w h
      cases ds with
      | nil =>
        rw [assignLoopF_nil] at h
        rcases some_pair_inj h with ⟨_, hv⟩
        subst hv
        exact sub1_refl _
      | cons e es =>
        by_cases hc : e ∈ vget v sq ∧ e ≠ d
        · rw [assignLoopF_cons_mem f es hc] at h
          exact sub1_of_andThen h (fun b2 v2 hre => ihE _ _ _ _ _ hre)
            (fun v2 b3 w3 _ hke => ihL _ _ _ _ _ _ hke)
        · rw [assignLoopF_cons_skip f es hc] at h
          exact ihL _ _ _ _ _ _ h
    · intro v sq d b w h
      by_cases hmem : d ∈ vget v sq
      · by_cases h0 : (vget (vset v sq ((vget v sq).erase d)) sq).card = 0
        · rw [elimF_mem_card0 f hmem h0] at h
          rcases some_pair_inj h with ⟨_, hv⟩
          subst hv
          exact sub1_set_erase v sq d
        · by_cases h1 : (vget (vset v sq ((vget v sq).erase d)) sq).card = 1
          · rw [elimF_mem_card1 f hmem h1] at h
            refine sub1_trans ?_ (sub1_set_erase v sq d)
            exact sub1_of_andThen h (fun b2 v2 hre => ihP _ _ _ _ _ hre)
              (fun v2 b3 w3 _ hke => ihU _ _ _ _ _ hke)
          · rw [elimF_mem_cardN f hmem h0 h1] at h
            exact sub1_trans (ihU _ _ _ _ _ h) (sub1_set_erase v sq d)
      · rw [elimF_notMem f hmem] at h
        rcases some_pair_inj h with ⟨_, hv⟩
        subst hv
        exact sub1_refl _
    · intro v ps rem b w h
      cases ps with
      | nil =>
        rw [elimPeersF_nil] at h
        rcases some_pair_inj h with ⟨_, hv⟩
        subst hv
        exact sub1_refl _
      | cons p rest =>
        rw [elimPeersF_cons] at h
        exact sub1_of_andThen h (fun b2 v2 hre => ihE _ _ _ _ _ hre)
          (fun v2 b3 w3 _ hke => ihP _ _ _ _ _ hke)
    · intro v us d b w h
      cases us with
      | nil =>
        rw [elimUnitsF_nil] at h
        rcases some_pair_inj h with ⟨_, hv⟩
        subst hv
        exact sub1_refl _
      | cons u rest =>
        by_cases hl0 : (u.filter (fun s => d ∈ vget v s)).length = 0
        · rw [elimUnitsF_cons_none f rest hl0] at h
          rcases some_pair_inj h with ⟨_, hv⟩
          subst hv
          exact sub1_refl _
        · by_cases hl1 : (u.filter (fun s => d ∈ vget v s)).length = 1
          · rw [elimUnitsF_cons_one f rest hl1] at h
            exact sub1_of_andThen h (fun b2 v2 hre => ihA _ _ _ _ _ hre)
              (fun v2 b3 w3 _ hke => ihU _ _ _ _ _ hke)
          · rw [elimUnitsF_cons_many f rest hl0 hl1] at h
            exact ihU _ _ _ _ _ h

theorem not_mem_of_sub1 {w v : Values} (h : sub1 w v) {i d : Nat}
    (hd : d ∉ vget v i) : d ∉ vget w i := fun hmem => hd (h.2 i hmem)

theorem andThen_eq_some_true {r : Option (Bool × Values)}
    {k : Values → Option (Bool × Values)} {w : Values}
    (h : andThen r k = some (true, w)) :
    ∃ v2, r = some (true, v2) ∧ k v2 = some (true, w) := by
  rcases andThen_eq_some h with ⟨hb, _⟩ | he
  · cases hb
  · exact he

theorem vget_erase_self {v : Values} {sq d : Nat} (h : d ∈ vget v sq) :
    vget (vset v sq ((vget v sq).erase d)) sq = (vget v sq).erase d :=
  vget_vset_self (mem_vget_lt h) _

/-- After any completed `eliminate` call, the digit is gone from the
square (it is removed first, and propagation only ever removes). -/
theorem elim_absence {fuel : Nat} {v : Values} {sq d : Nat} {b : Bool} {w : Values}
    (h : elimF fuel v sq d = some (b, w)) : d ∉ vget w sq := by
  cases fuel with
  | zero => simp [elimF] at h
  | succ f =>
    by_cases hmem : d ∈ vget v sq
    · have hv1 : d ∉ vget (vset v sq ((vget v sq).erase d)) sq := by
        rw [vget_erase_self hmem]
        exact Finset.not_mem_erase d _
      by_cases h0 : (vget (vset v sq ((vget v sq).erase d)) sq).card = 0
      · rw [elimF_mem_card0 f hmem h0] at h
        rcases some_pair_inj h with ⟨_, hv⟩
        subst hv
        exact hv1
      · by_cases h1 : (vget (vset v sq ((vget v sq).erase d)) sq).card = 1
        · rw [elimF_mem_card1 f hmem h1] at h
          rcases andThen_eq_some h with ⟨_, hre⟩ | ⟨v2, hre, hke⟩
          · exact not_mem_of_sub1 ((prop_sub1 f).2.2.2.1 _ _ _ _ _ hre) hv1
          · have hs2 : sub1 v2 _ := (prop_sub1 f).2.2.2.1 _ _ _ _ _ hre
            have hs3 : sub1 w v2 := (prop_sub1 f).2.2.2.2 _ _ _ _ _ hke
            exact not_mem_of_sub1 (sub1_trans hs3 hs2) hv1
        · rw [elimF_mem_cardN f hmem h0 h1] at h
          exact not_mem_of_sub1 ((prop_sub1 f).2.2.2.2 _ _ _ _ _ h) hv1
    · rw [elimF_notMem f hmem] at h
      rcases some_pair_inj h with ⟨_, hv⟩
      subst hv
      exact hmem

theorem nonempty_vget_v1 {v : Values} {sq d : Nat} (hmem : d ∈ vget v sq)
    (h0 : (vget (vset v sq ((vget v sq).erase d)) sq).card ≠ 0) :
    ∀ i, vget v i ≠ ∅ → vget (vset v sq ((vget v sq).erase d)) i ≠ ∅ := by
  intro i hi
  rcases eq_or_ne i sq with rfl | hne
  · intro he
    rw [he] at h0
    simp at h0
  · rw [vget_vset_ne v hne]
    exact hi

/-- Successful propagation keeps every nonempty square nonempty (the only
way a square empties is the `card = 0` branch, which reports failure). -/
theorem prop_nonempty : ∀ fuel : Nat,
    (∀ v sq d w, assignF fuel v sq d = some (true, w) →
      ∀ i, vget v i ≠ ∅ → vget w i ≠ ∅) ∧
    (∀ v sq d ds w, assignLoopF fuel v sq d ds = some (true, w) →
      ∀ i, vget v i ≠ ∅ → vget w i ≠ ∅) ∧
    (∀ v sq d w, elimF fuel v sq d = some (true, w) →
      ∀ i, vget v i ≠ ∅ → vget w i ≠ ∅) ∧
    (∀ v ps rem w, elimPeersF fuel v ps rem = some (true, w) →
      ∀ i, vget v i ≠ ∅ → vget w i ≠ ∅) ∧
    (∀ v us d w, elimUnitsF fuel v us d = some (true, w) →
      ∀ i, vget v i ≠ ∅ → vget w i ≠ ∅) := by
  intro fuel
  induction fuel with
  | zero =>
    refine ⟨?_, ?_, ?_, ?_, ?_⟩
    · intro v sq d w h; simp [assignF] at h
    · intro v sq d ds w h; simp [assignLoopF] at h
    · intro v sq d w h; simp [elimF] at h
    · intro v ps rem w h; simp [elimPeersF] at h
    · intro v us d w h; simp [elimUnitsF] at h
  | succ f ih =>
    obtain ⟨ihA, ihL, ihE, ihP, ihU⟩ := ih
    refine ⟨?_, ?_, ?_, ?_, ?_⟩
    · intro v sq d w h
      rw [assignF_succ] at h
      exact ihL _ _ _ _ _ h
    · intro v sq d ds w h
      cases ds with
      | nil =>
        rw [assignLoopF_nil] at h
        rcases some_pair_inj h with ⟨_, hv⟩
        subst hv
        exact fun i hi => hi
      | cons e es =>
        by_cases hc : e ∈ vget v sq ∧ e ≠ d
        · rw [assignLoopF_cons_mem f es hc] at h
          rcases andThen_eq_some_true h with ⟨v2, hre, hke⟩
          exact fun i hi => ihL _ _ _ _ _ hke i (ihE _ _ _ _ hre i hi)
        · rw [assignLoopF_cons_skip f es hc] at h
          exact ihL _ _ _ _ _ h
    · intro v sq d w h
      by_cases hmem : d ∈ vget v sq
      · by_cases h0 : (vget (vset v sq ((vget v sq).erase d)) sq).card = 0
        · rw [elimF_mem_card0 f hmem h0] at h
          rcases some_pair_inj h with ⟨hb, _⟩
          cases hb
        · by_cases h1 : (vget (vset v sq ((vget v sq).erase d)) sq).card = 1
          · rw [elimF_mem_card1 f hmem h1] at h
            rcases andThen_eq_some_true h with ⟨v2, hre, hke⟩
            intro i hi
            exact ihU _ _ _ _ hke i (ihP _ _ _ _ hre i (nonempty_vget_v1 hmem h0 i hi))
          · rw [elimF_mem_cardN f hmem h0 h1] at h
            intro i hi
            exact ihU _ _ _ _ h i (nonempty_vget_v1 hmem h0 i hi)
      · rw [elimF_notMem f hmem] at h
        rcases some_pair_inj h with ⟨_, hv⟩
        subst hv
        exact fun i hi => hi
    · intro v ps rem w h
      cases ps with
      | nil =>
        rw [elimPeersF_nil] at h
        rcases some_pair_inj h with ⟨_, hv⟩
        subst hv
        exact fun i hi => hi
      | cons p rest =>
        rw [elimPeersF_cons] at h
        rcases andThen_eq_some_true h with ⟨v2, hre, hke⟩
        exact fun i hi => ihP _ _ _ _ hke i (ihE _ _ _ _ hre i hi)
    · intro v us d w h
      cases us with
      | nil =>
        rw [elimUnitsF_nil] at h
        rcases some_pair_inj h with ⟨_, hv⟩
        subst hv
        exact fun i hi => hi
      | cons u rest =>
        by_cases hl0 : (u.filter (fun s => d ∈ vget v s)).length = 0
        · rw [elimUnitsF_cons_none f rest hl0] at h
          rcases some_pair_inj h with ⟨hb, _⟩
          cases hb
        · by_cases hl1 : (u.filter (fun s => d ∈ vget v s)).length = 1
          · rw [elimUnitsF_cons_one f rest hl1] at h
            rcases andThen_eq_some_true h with ⟨v2, hre, hke⟩
            exact fun i hi => ihU _ _ _ _ hke i (ihA _ _ _ _ hre i hi)
          · rw [elimUnitsF_cons_many f rest hl0 hl1] at h
            exact ihU _ _ _ _ h

/-- The digit loop of `assign` removes every listed digit other than the
target from the square (on success). -/
theorem assignLoop_clears : ∀ fuel : Nat, ∀ {v : Values} {sq d : Nat} {ds : List Nat}
    {w : Values}, assignLoopF fuel v sq d ds = some (true, w) →
    ∀ e ∈ ds, e ≠ d → e ∉ vget w sq := by
  intro fuel
  induction fuel with
  | zero => intro v sq d ds w h; simp [assignLoopF] at h
  | succ f ih =>
    intro v sq d ds w h
    cases ds with
    | nil => intro e he; simp at he
    | cons e0 es =>
      by_cases hc : e0 ∈ vget v sq ∧ e0 ≠ d
      · rw [assignLoopF_cons_mem f es hc] at h
        rcases andThen_eq_some_true h with ⟨v2, hre, hke⟩
        intro e he hed
        rcases List.mem_cons.1 he with rfl | hes
        · exact not_mem_of_sub1 ((prop_sub1 f).2.1 _ _ _ _ _ _ hke) (elim_absence hre)
        · exact ih hke e hes hed
      · rw [assignLoopF_cons_skip f es hc] at h
        intro e he hed
        rcases List.mem_cons.1 he with rfl | hes
        · have hnm : e ∉ vget v sq := fun hm => hc ⟨hm, hed⟩
          exact not_mem_of_sub1 ((prop_sub1 f).2.1 _ _ _ _ _ _ h) hnm
        · exact ih h e hes hed

/-- The peer loop of `eliminate` removes `rem` from every listed peer (on
success). -/
theorem peersLoop_clears : ∀ fuel : Nat, ∀ {v : Values} {ps : List Nat} {rem : Nat}
    {w : Values}, elimPeersF fuel v ps rem = some (true, w) →
    ∀ p ∈ ps, rem ∉ vget w p := by
  intro fuel
  induction fuel with
  | zero => intro v ps rem w h; simp [elimPeersF] at h
  | succ f ih =>
    intro v ps rem w h
    cases ps with
    | nil => intro p hp; simp at hp
    | cons p0 rest =>
      rw [elimPeersF_cons] at h
      rcases andThen_eq_some_true h with ⟨v2, hre, hke⟩
      intro p hp
      rcases List.mem_cons.1 hp with rfl | hrest
      · exact not_mem_of_sub1 ((prop_sub1 f).2.2.2.1 _ _ _ _ _ hke) (elim_absence hre)
      · exact ih hke p hrest

theorem elim_strict {f : Nat} {v : Values} {sq e : Nat} {b : Bool} {v2 : Values}
    (hmem : e ∈ vget v sq) (h : elimF f v sq e = some (b, v2)) :
    totalCount v2 < totalCount v := by
  have hsub : sub1 v2 v := (prop_sub1 f).2.2.1 _ _ _ _ _ h
  have habs : e ∉ vget v2 sq := elim_absence h
  apply totalCount_lt_of_sub1 hsub
  apply Finset.card_lt_card
  rw [Finset.ssubset_iff_subset_ne]
  refine ⟨hsub.2 sq, fun heq => habs ?_⟩
  rw [heq]
  exact hmem

/-- Fuel sufficiency: with fuel exceeding a linear potential in the total
candidate count, none of the propagation functions ever runs out.  This is
the termination argument for the Go mutual recursion: every actual removal
strictly shrinks the candidate count. -/
theorem prop_fuel_suff : ∀ fuel : Nat,
    (∀ v sq d, 100 * totalCount v + 70 < fuel → assignF fuel v sq d ≠ none) ∧
    (∀ v sq d ds, 100 * totalCount v + 40 + ds.length < fuel →
      assignLoopF fuel v sq d ds ≠ none) ∧
    (∀ v sq d, 100 * totalCount v < fuel → elimF fuel v sq d ≠ none) ∧
    (∀ v ps rem, 100 * totalCount v + 20 + ps.length < fuel →
      elimPeersF fuel v ps rem ≠ none) ∧
    (∀ v us d, 100 * totalCount v + 90 + us.length < fuel →
      elimUnitsF fuel v us d ≠ none) := by
  intro fuel
  induction fuel with
  | zero =>
    refine ⟨?_, ?_, ?_, ?_, ?_⟩
    · intro v sq d hf; omega
    · intro v sq d ds hf; omega
    · intro v sq d hf; omega
    · intro v ps rem hf; omega
    · intro v us d hf; omega
  | succ f ih =>
    obtain ⟨ihA, ihL, ihE, ihP, ihU⟩ := ih
    refine ⟨?_, ?_, ?_, ?_, ?_⟩
    · intro v sq d hf
      rw [assignF_succ]
      apply ihL
      have : digitsList.length = 9 := rfl
      omega
    · intro v sq d ds hf
      cases ds with
      | nil => rw [assignLoopF_nil]; simp
      | cons e es =>
        by_cases hc : e ∈ vget v sq ∧ e ≠ d
        · rw [assignLoopF_cons_mem f es hc]
          apply andThen_ne_none
          · apply ihE
            simp only [List.length_cons] at hf
            omega
          · intro v2 hre
            have hlt : totalCount v2 < totalCount v := elim_strict hc.1 hre
            apply ihL
            simp only [List.length_cons] at hf
            omega
        · rw [assignLoopF_cons_skip f es hc]
          apply ihL
          simp only [List.length_cons] at hf
          omega
    · intro v sq d hf
      by_cases hmem : d ∈ vget v sq
      · have hv1lt : totalCount (vset v sq ((vget v sq).erase d)) < totalCount v :=
          totalCount_erase_lt hmem
        by_cases h0 : (vget (vset v sq ((vget v sq).erase d)) sq).card = 0
        · rw [elimF_mem_card0 f hmem h0]; simp
        · by_cases h1 : (vget (vset v sq ((vget v sq).erase d)) sq).card = 1
          · rw [elimF_mem_card1 f hmem h1]
            apply andThen_ne_none
            · apply ihP
              have hple : (peersOf sq).length ≤ 20 := peersOf_length_le sq
              omega
            · intro v2 hre
              have hs : sub1 v2 _ := (prop_sub1 f).2.2.2.1 _ _ _ _ _ hre
              have hle2 : totalCount v2 ≤ totalCount (vset v sq ((vget v sq).erase d)) :=
                totalCount_le_of_sub1 hs
              apply ihU
              have hule : (unitsOf sq).length ≤ 3 := unitsOf_length_le sq
              omega
          · rw [elimF_mem_cardN f hmem h0 h1]
            apply ihU
            have hule : (unitsOf sq).length ≤ 3 := unitsOf_length_le sq
            omega
      · rw [elimF_notMem f hmem]; simp
    · intro v ps rem hf
      cases ps with
      | nil => rw [elimPeersF_nil]; simp
      | cons p rest =>
        rw [elimPeersF_cons]
        apply andThen_ne_none
        · apply ihE
          simp only [List.length_cons] at hf
          omega
        · intro v2 hre
          have hs : sub1 v2 v := (prop_sub1 f).2.2.1 _ _ _ _ _ hre
          have hle2 : totalCount v2 ≤ totalCount v := totalCount_le_of_sub1 hs
          apply ihP
          simp only [List.length_cons] at hf
          omega
    · intro v us d hf
      cases us with
      | nil => rw [elimUnitsF_nil]; simp
      | cons u rest =>
        by_cases hl0 : (u.filter (fun s => d ∈ vget v s)).length = 0
        · rw [elimUnitsF_cons_none f rest hl0]; simp
        · by_cases hl1 : (u.filter (fun s => d ∈ vget v s)).length = 1
          · rw [elimUnitsF_cons_one f rest hl1]
            apply andThen_ne_none
            · apply ihA
              simp only [List.length_cons] at hf
              omega
            · intro v2 hre
              have hs : sub1 v2 v := (prop_sub1 f).1 _ _ _ _ _ hre
              have hle2 : totalCount v2 ≤ totalCount v := totalCount_le_of_sub1 hs
              apply ihU
              simp only [List.length_cons] at hf
              omega
          · rw [elimUnitsF_cons_many f rest hl0 hl1]
            apply ihU
            simp only [List.length_cons] at hf
            omega

theorem assignF_propFuel_ne_none (v : Values) (sq d : Nat) :
    assignF (propFuel v) v sq d ≠ none := by
  apply (prop_fuel_suff (propFuel v)).1
  unfold propFuel
  omega

theorem elimF_propFuel_ne_none (v : Values) (sq d : Nat) :
    elimF (propFuel v) v sq d ≠ none := by
  apply (prop_fuel_suff (propFuel v)).2.2.1
  unfold propFuel
  omega

theorem assignF_eq_some_assign (v : Values) (sq d : Nat) :
    assignF (propFuel v) v sq d = some (assign v sq d) := by
  cases he : assignF (propFuel v) v sq d with
  | none => exact absurd he (assignF_propFuel_ne_none v sq d)
  | some r => simp [assign, he]

theorem elimF_eq_some_eliminate (v : Values) (sq d : Nat) :
    elimF (propFuel v) v sq d = some (eliminate v sq d) := by
  cases he : elimF (propFuel v) v sq d with
  | none => exact absurd he (elimF_propFuel_ne_none v sq d)
  | some r => simp [eliminate, he]

/-- C4: the mutually recursive assign/eliminate propagation terminates on
every board, square index and digit: with fuel `propFuel v` (linear in the
total candidate count, which every actual removal strictly shrinks) the
fuelled recursion always completes, reaching a fixed point or a
contradiction, never diverging. -/
theorem claim_C4_termination : ∀ (v : Values) (sq d : Nat),
    assignF (propFuel v) v sq d ≠ none ∧ elimF (propFuel v) v sq d ≠ none :=
  fun v sq d => ⟨assignF_propFuel_ne_none v sq d, elimF_propFuel_ne_none v sq d⟩

/-- C10: propagation only narrows the board: after any call to `eliminate`
or `assign`, successful or failed, every square's candidate set is a
subset of what it was before the call. -/
theorem claim_C10_narrowing : ∀ (v : Values) (sq d i : Nat),
    vget (eliminate v sq d).2 i ⊆ vget v i ∧ vget (assign v sq d).2 i ⊆ vget v i := by
  intro v sq d i
  constructor
  · have h := elimF_eq_some_eliminate v sq d
    exact ((prop_sub1 (propFuel v)).2.2.1 v sq d (eliminate v sq d).1 (eliminate v sq d).2 h).2 i
  · have h := assignF_eq_some_assign v sq d
    exact ((prop_sub1 (propFuel v)).1 v sq d (assign v sq d).1 (assign v sq d).2 h).2 i

theorem eliminate_notMem {v : Values} {sq d : Nat} (h : d ∉ vget v sq) :
    eliminate v sq d = (true, v) := by
  have hsplit : propFuel v = (100 * totalCount v + 99) + 1 := by
    unfold propFuel
    omega
  unfold eliminate
  rw [hsplit, elimF_notMem _ h]
  rfl

/-- C6: eliminating an already-absent digit is a successful no-op, and
hence a second `eliminate` with the same square and digit (after any first
call) succeeds and changes nothing. -/
theorem claim_C6_idempotent : ∀ (v : Values) (sq d : Nat),
    (d ∉ vget v sq → eliminate v sq d = (true, v)) ∧
    (∀ (b1 : Bool) (v1 : Values), eliminate v sq d = (b1, v1) →
      eliminate v1 sq d = (true, v1)) := by
  intro v sq d
  constructor
  · exact fun h => eliminate_notMem h
  · intro b1 v1 h1
    have he : elimF (propFuel v) v sq d = some (b1, v1) := by
      rw [elimF_eq_some_eliminate, h1]
    exact eliminate_notMem (elim_absence he)

/-- Witness for C6 at a concrete board: the absent-digit call is a no-op,
and a repeated elimination is a successful no-op the second time. -/
theorem claim_C6_witness :
    ((3 : Nat) ∉ vget [({1, 2} : Digits)] 0 ∧
      eliminate [({1, 2} : Digits)] 0 3 = (true, [({1, 2} : Digits)])) ∧
    eliminate (eliminate [({1, 2} : Digits)] 0 1).2 0 1 =
      (true, (eliminate [({1, 2} : Digits)] 0 1).2) := by
  constructor
  · have hnm : (3 : Nat) ∉ vget [({1, 2} : Digits)] 0 := by decide
    exact ⟨hnm, (claim_C6_idempotent [({1, 2} : Digits)] 0 3).1 hnm⟩
  · exact (claim_C6_idempotent [({1, 2} : Digits)] 0 1).2
      (eliminate [({1, 2} : Digits)] 0 1).1 (eliminate [({1, 2} : Digits)] 0 1).2
      Prod.mk.eta.symm

/-- C9: the topology built at engine construction has exactly 27 units;
every square lies in exactly 3 units and has exactly 20 distinct peers,
none of which is the square itself; and the peer relation is symmetric. -/
theorem claim_C9_topology :
    unitlist.length = 27 ∧
    (∀ i, i < 81 → (unitsOf i).length = 3 ∧ (peersOf i).length = 20 ∧
      (peersOf i).Nodup ∧ i ∉ peersOf i) ∧
    (∀ i j, i < 81 → j < 81 → (j ∈ peersOf i ↔ i ∈ peersOf j)) :=
  ⟨unitlist_length,
    fun _ hi => ⟨unitsOf_length_of_lt hi, peersOf_length_of_lt hi,
      peersOf_nodup_of_lt hi, peersOf_not_self hi⟩,
    fun _ _ hi hj => ⟨peersOf_symm_dir hi, peersOf_symm_dir hj⟩⟩

/-- Witness for C9 at concrete squares. -/
theorem claim_C9_witness :
    (unitsOf 20).length = 3 ∧ (peersOf 20).length = 20 ∧ 20 ∉ peersOf 20 ∧
      (2 ∈ peersOf 20 ↔ 20 ∈ peersOf 2) := by
  have h1 := claim_C9_topology.2.1 20 (by decide)
  have h2 := claim_C9_topology.2.2 20 2 (by decide) (by decide)
  exact ⟨h1.1, h1.2.1, h1.2.2.2, h2⟩

theorem searchF_succ_done {v : Values} (f : Nat) (h : (selectSquare v).1 < 0) :
    searchF (f + 1) v = some (v, true) := by
  show (if (selectSquare v).1 < 0 then _ else _) = _
  rw [if_pos h]

/-- On the empty board, the selection scan of `search` picks no square:
`minSize` starts at 9 and the scan demands a strictly smaller cardinality,
so squares holding all 9 candidates are never selectable. -/
theorem search_emptyBoard : search emptyBoard = (emptyBoard, true) := by
  have hsel : (selectSquare emptyBoard).1 < 0 := by decide
  have hf : searchFuel emptyBoard = 8758 + 1 := by decide
  unfold search
  rw [hf, searchF_succ_done 8758 hsel]
  rfl

/-- C2 (code bug): on the empty board `search` reports terminal success
and returns its input unchanged although every square still has
cardinality 9 > 1 — the `minSize = 9` initialisation makes squares with
all nine candidates unselectable, contradicting `search`'s own
documentation. -/
theorem claim_C2_bug_eval :
    search emptyBoard = (emptyBoard, true) ∧ 1 < (vget emptyBoard 0).card :=
  ⟨search_emptyBoard, by decide⟩

/-- C3 (code bug): solving the empty board reports success but the
returned board fails `isSolved`, contradicting `TestSolveEmpty` and the
scenario in the spec. -/
theorem claim_C3_bug_eval :
    (search emptyBoard).2 = true ∧ isSolved (search emptyBoard).1 = false := by
  rw [search_emptyBoard]
  exact ⟨rfl, by decide⟩

theorem singleMemberDigit_singleton (a : Nat) : singleMemberDigit {a} = a := by
  simp [singleMemberDigit]

theorem foldr_union_acc (v : Values) : ∀ (u : List Nat) (dset : Digits),
    u.foldr (fun s acc => vget v s ∪ acc) dset =
      (u.foldr (fun s acc => vget v s ∪ acc) ∅) ∪ dset := by
  intro u
  induction u with
  | nil => intro dset; simp
  | cons s rest ih =>
    intro dset
    simp only [List.foldr_cons]
    rw [ih dset, ih (∅ : Digits)]
    simp [Finset.union_assoc]

/-- The per-unit loop of `isSolved` accepts exactly when every square of
the unit is a singleton and the accumulated union covers the full digit
set. -/
theorem unitSolvedLoop_iff (v : Values) : ∀ (u : List Nat) (dset : Digits),
    unitSolvedLoop v u dset = true ↔
      ((∀ s ∈ u, (vget v s).card = 1) ∧
        u.foldr (fun s acc => vget v s ∪ acc) dset = fullDigitsSet) := by
  intro u
  induction u with
  | nil =>
    intro dset
    simp [unitSolvedLoop]
  | cons s rest ih =>
    intro dset
    by_cases hc : (vget v s).card = 1
    · have hns : ¬((vget v s).card ≠ 1) := by omega
      have hstep : unitSolvedLoop v (s :: rest) dset =
          unitSolvedLoop v rest (insert (singleMemberDigit (vget v s)) dset) := by
        show (if (vget v s).card ≠ 1 then false else _) = _
        rw [if_neg hns]
      rw [hstep, ih]
      obtain ⟨a, ha⟩ := Finset.card_eq_one.1 hc
      have hsm : singleMemberDigit (vget v s) = a := by
        rw [ha, singleMemberDigit_singleton]
      constructor
      · rintro ⟨h1, h2⟩
        refine ⟨?_, ?_⟩
        · intro s2 hs2
          rcases List.mem_cons.1 hs2 with rfl | hmem
          · exact hc
          · exact h1 s2 hmem
        · rw [hsm] at h2
          rw [foldr_union_acc v rest (insert a dset)] at h2
          simp only [List.foldr_cons]
          rw [foldr_union_acc v rest dset, ha]
          rw [Finset.insert_eq] at h2
          rw [← h2]
          rw [Finset.union_left_comm]
      · rintro ⟨h1, h2⟩
        refine ⟨fun s2 hs2 => h1 s2 (List.mem_cons_of_mem s hs2), ?_⟩
        simp only [List.foldr_cons] at h2
        rw [foldr_union_acc v rest dset, ha] at h2
        rw [hsm, foldr_union_acc v rest (insert a dset), Finset.insert_eq]
        rw [← h2]
        rw [Finset.union_left_comm]
    · have hstep : unitSolvedLoop v (s :: rest) dset = false := by
        show (if (vget v s).card ≠ 1 then false else _) = _
        rw [if_pos hc]
      rw [hstep]
      constructor
      · intro hfalse
        cases hfalse
      · rintro ⟨h1, _⟩
        exact absurd (h1 s (List.mem_cons_self s rest)) hc

theorem square_mem_some_unit : ∀ sq, sq < 81 → ∃ u ∈ unitlist, sq ∈ u := by decide

/-- C7: `isSolved` is true exactly when every one of the 27 units consists
of nine singleton squares whose members together cover the whole digit
set; in particular it is false on the empty board and on any board where
some square (0..80) has two or more candidates.  (The embedding is a pure
function, matching the no-mutation part of the claim.) -/
theorem claim_C7_isSolved :
    (∀ v : Values, isSolved v = true ↔
      ∀ u ∈ unitlist, (∀ s ∈ u, (vget v s).card = 1) ∧
        u.foldr (fun s acc => vget v s ∪ acc) ∅ = fullDigitsSet) ∧
    isSolved emptyBoard = false ∧
    (∀ (v : Values) (sq : Nat), sq < 81 → 2 ≤ (vget v sq).card → isSolved v = false) := by
  have hiff : ∀ v : Values, isSolved v = true ↔
      ∀ u ∈ unitlist, (∀ s ∈ u, (vget v s).card = 1) ∧
        u.foldr (fun s acc => vget v s ∪ acc) ∅ = fullDigitsSet := by
    intro v
    unfold isSolved
    rw [List.all_eq_true]
    constructor
    · intro h u hu
      exact (unitSolvedLoop_iff v u ∅).1 (h u hu)
    · intro h u hu
      exact (unitSolvedLoop_iff v u ∅).2 (h u hu)
  refine ⟨hiff, by decide, ?_⟩
  intro v sq hsq hcard
  by_contra hne
  have htrue : isSolved v = true := by
    cases hval : isSolved v with
    | false => exact absurd hval hne
    | true => rfl
  obtain ⟨u, hu, hmem⟩ := square_mem_some_unit sq hsq
  have h1 := ((hiff v).1 htrue u hu).1 sq hmem
  omega

/-- Witness for C7: the two-or-more-candidates conjunct applied to the
empty board at square 0. -/
theorem claim_C7_witness :
    (0 : Nat) < 81 ∧ 2 ≤ (vget emptyBoard 0).card ∧ isSolved emptyBoard = false :=
  ⟨by decide, by decide, claim_C7_isSolved.2.2 emptyBoard 0 (by decide) (by decide)⟩

theorem assignAll_nil (v : Values) : assignAll v [] = some v := rfl

theorem assignAll_cons_zero (v : Values) (sq : Nat) (rest : List (Nat × Nat)) :
    assignAll v ((sq, 0) :: rest) = assignAll v rest := by
  show (if (0 : Nat) ≠ 0 then _ else _) = _
  rw [if_neg (by omega)]

theorem assignAll_cons_true {v : Values} {sq d : Nat} {v2 : Values}
    (rest : List (Nat × Nat)) (hd : d ≠ 0) (ha : assign v sq d = (true, v2)) :
    assignAll v ((sq, d) :: rest) = assignAll v2 rest := by
  show (if d ≠ 0 then _ else _) = _
  rw [if_pos hd, ha]

theorem assignAll_cons_false {v : Values} {sq d : Nat} {v2 : Values}
    (rest : List (Nat × Nat)) (hd : d ≠ 0) (ha : assign v sq d = (false, v2)) :
    assignAll v ((sq, d) :: rest) = none := by
  show (if d ≠ 0 then _ else _) = _
  rw [if_pos hd, ha]

/-- The assignment loop of the parser fails exactly when, after some
prefix of successful assignments, a non-zero digit's `assign` reports
failure. -/
theorem assignAll_none_iff : ∀ (l : List (Nat × Nat)) (v : Values),
    assignAll v l = none ↔
      ∃ l1 sq d l2, l = l1 ++ (sq, d) :: l2 ∧ d ≠ 0 ∧
        ∃ v1, assignAll v l1 = some v1 ∧ (assign v1 sq d).1 = false := by
  intro l
  induction l with
  | nil =>
    intro v
    constructor
    · intro h
      simp [assignAll] at h
    · rintro ⟨l1, sq, d, l2, habs, -, -⟩
      exact absurd habs (by simp)
  | cons hd0 rest ih =>
    intro v
    rcases hd0 with ⟨sq0, d0⟩
    by_cases hd : d0 ≠ 0
    · cases ha : assign v sq0 d0 with
      | mk b2 v2 =>
        cases b2 with
        | true =>
          rw [assignAll_cons_true rest hd ha]
          constructor
          · intro h
            obtain ⟨l1, sq, d, l2, heq, hdne, v1, hall, hfail⟩ := (ih v2).1 h
            refine ⟨(sq0, d0) :: l1, sq, d, l2, by rw [heq]; rfl, hdne, v1, ?_, hfail⟩
            rw [assignAll_cons_true l1 hd ha]
            exact hall
          · rintro ⟨l1, sq, d, l2, heq, hdne, v1, hall, hfail⟩
            cases l1 with
            | nil =>
              simp only [List.nil_append] at heq
              injection heq with h1 h2
              injection h1 with hsq hd2
              subst hsq
              subst hd2
              rw [assignAll_nil] at hall
              injection hall with hv1
              subst hv1
              rw [ha] at hfail
              cases hfail
            | cons p l1t =>
              rw [List.cons_append] at heq
              injection heq with h1 h2
              subst h1
              rw [assignAll_cons_true l1t hd ha] at hall
              exact (ih v2).2 ⟨l1t, sq, d, l2, h2, hdne, v1, hall, hfail⟩
        | false =>
          rw [assignAll_cons_false rest hd ha]
          constructor
          · intro _
            exact ⟨[], sq0, d0, rest, rfl, hd, v, assignAll_nil v, by rw [ha]⟩
          · intro _
            rfl
    · have hd0 : d0 = 0 := by omega
      subst hd0
      rw [assignAll_cons_zero]
      constructor
      · intro h
        obtain ⟨l1, sq, d, l2, heq, hdne, v1, hall, hfail⟩ := (ih v).1 h
        refine ⟨(sq0, 0) :: l1, sq, d, l2, by rw [heq]; rfl, hdne, v1, ?_, hfail⟩
        rw [assignAll_cons_zero]
        exact hall
      · rintro ⟨l1, sq, d, l2, heq, hdne, v1, hall, hfail⟩
        cases l1 with
        | nil =>
          simp only [List.nil_append] at heq
          injection heq with h1 h2
          injection h1 with hsq hd2
          exact absurd hd2.symm hdne
        | cons p l1t =>
          rw [List.cons_append] at heq
          injection heq with h1 h2
          subst h1
          rw [assignAll_cons_zero] at hall
          exact (ih v).2 ⟨l1t, sq, d, l2, h2, hdne, v1, hall, hfail⟩

/-- The rune scan keeps exactly the ASCII digits and the dot, mapping a
digit rune to its value and both `'0'` and `'.'` to 0. -/
theorem parseDigitsOf_spec : ∀ s : List Char,
    parseDigitsOf s =
      (s.filter (fun c => ('0' ≤ c ∧ c ≤ '9') ∨ c = '.')).map
        (fun c => if c = '.' then 0 else c.toNat - '0'.toNat) := by
  intro s
  induction s with
  | nil => rfl
  | cons c rest ih =>
    show List.filterMap runeDigit (c :: rest) = _
    rw [List.filterMap_cons]
    by_cases h1 : '0' ≤ c ∧ c ≤ '9'
    · have hne : c ≠ '.' := by
        rintro rfl
        exact absurd h1.1 (by decide)
      have hr : runeDigit c = some (c.toNat - '0'.toNat) := by
        unfold runeDigit
        rw [if_pos h1]
      rw [hr]
      show (c.toNat - '0'.toNat) :: parseDigitsOf rest = _
      rw [List.filter_cons_of_pos (by simp [h1])]
      rw [List.map_cons, if_neg hne]
      rw [ih]
    · by_cases h2 : c = '.'
      · subst h2
        have hr : runeDigit '.' = some 0 := by
          unfold runeDigit
          rw [if_neg h1, if_pos rfl]
        rw [hr]
        show (0 : Nat) :: parseDigitsOf rest = _
        rw [List.filter_cons_of_pos (by simp)]
        rw [List.map_cons, if_pos rfl]
        rw [ih]
      · have hr : runeDigit c = none := by
          unfold runeDigit
          rw [if_neg h1, if_neg h2]
        rw [hr]
        show parseDigitsOf rest = _
        rw [List.filter_cons_of_neg (by simp [h1, h2])]
        exact ih

theorem parseBoard_step (s : List Char) :
    parseBoard s = if (parseDigitsOf s).length ≠ 81 then none
      else assignAll emptyBoard (parseDigitsOf s).enum := rfl

/-- C8: the parser keeps exactly the runes that are ASCII digits or dots
(both `'0'` and `'.'` meaning unassigned, everything else discarded), and
it errors (returning no board) precisely when the kept-rune count differs
from 81 or some non-zero kept digit's `assign` onto its square fails after
the previous digits were assigned successfully. -/
theorem claim_C8_parse : ∀ s : List Char,
    (parseDigitsOf s =
      (s.filter (fun c => ('0' ≤ c ∧ c ≤ '9') ∨ c = '.')).map
        (fun c => if c = '.' then 0 else c.toNat - '0'.toNat)) ∧
    (parseBoard s = none ↔
      (s.filter (fun c => ('0' ≤ c ∧ c ≤ '9') ∨ c = '.')).length ≠ 81 ∨
        ∃ l1 sq d l2, (parseDigitsOf s).enum = l1 ++ (sq, d) :: l2 ∧ d ≠ 0 ∧
          ∃ v1, assignAll emptyBoard l1 = some v1 ∧ (assign v1 sq d).1 = false) := by
  intro s
  have hlen : (parseDigitsOf s).length =
      (s.filter (fun c => ('0' ≤ c ∧ c ≤ '9') ∨ c = '.')).length := by
    rw [parseDigitsOf_spec s, List.length_map]
  refine ⟨parseDigitsOf_spec s, ?_⟩
  rw [parseBoard_step s]
  by_cases hl : (parseDigitsOf s).length ≠ 81
  · rw [if_pos hl]
    constructor
    · intro _
      exact Or.inl (by omega)
    · intro _
      rfl
  · rw [if_neg hl]
    rw [assignAll_none_iff]
    constructor
    · intro h
      exact Or.inr h
    · intro h
      rcases h with hbad | h
    

      · omega
      · exact h

/-- Witness for C8: a one-character input has only one kept rune, so the
parser errors. -/
theorem claim_C8_witness : parseBoard [Char.ofNat 49] = none :=
  (claim_C8_parse [Char.ofNat 49]).2.2 (Or.inl (by decide))

/-- The data-model invariant from the spec: every square's candidate set
is a subset of the digits 1..9. -/
def Bounded (v : Values) : Prop := ∀ i, i < v.length → vget v i ⊆ fullDigitsSet

theorem bounded_vget {v : Values} (hb : Bounded v) (i : Nat) :
    vget v i ⊆ fullDigitsSet := by
  rcases Nat.lt_or_ge i v.length with h | h
  · exact hb i h
  · rw [vget_of_ge h]
    exact Finset.empty_subset _

theorem mem_fullDigits_digitsList : ∀ e ∈ fullDigitsSet, e ∈ digitsList := by decide

/-- A successful `assign` whose digit was among the square's candidates
leaves the square with exactly that digit (needs the 1..9 invariant so
that the 1..9 loop covers every other candidate). -/
theorem assign_member_singleton {fuel : Nat} {v : Values} {sq d : Nat} {w : Values}
    (hb : Bounded v) (hmem : d ∈ vget v sq) (h : assignF fuel v sq d = some (true, w)) :
    vget w sq = {d} := by
  cases fuel with
  | zero => simp [assignF] at h
  | succ f =>
    rw [assignF_succ] at h
    have hsub : sub1 w v := (prop_sub1 f).2.1 _ _ _ _ _ _ h
    have hne : vget w sq ≠ ∅ :=
      (prop_nonempty f).2.1 _ _ _ _ _ h sq (Finset.ne_empty_of_mem hmem)
    have hsubset : vget w sq ⊆ {d} := by
      intro e he
      have hev : e ∈ vget v sq := hsub.2 sq he
      have hef : e ∈ fullDigitsSet := bounded_vget hb sq hev
      have hel : e ∈ digitsList := mem_fullDigits_digitsList e hef
      rcases eq_or_ne e d with rfl | hne2
      · exact Finset.mem_singleton_self e
      · exact absurd he (assignLoop_clears f h e hel hne2)
    rcases Finset.subset_singleton_iff.1 hsubset with h0 | h1
    · exact absurd h0 hne
    · exact h1

/-- C5: the failure and forced-placement behaviour of `eliminate`:
removing a digit that empties the square reports failure (with the digit
removed); a unit left with no square admitting the digit reports failure;
a unit left with exactly one admitting square gets the digit assigned
there. -/
theorem claim_C5_contradictions :
    (∀ (v : Values) (sq d : Nat), d ∈ vget v sq → (vget v sq).card = 1 →
      eliminate v sq d = (false, vset v sq ((vget v sq).erase d))) ∧
    (∀ (fuel : Nat) (v : Values) (u : List Nat) (rest : List (List Nat)) (d : Nat),
      (∀ s ∈ u, d ∉ vget v s) →
      elimUnitsF (fuel + 1) v (u :: rest) d = some (false, v)) ∧
    (∀ (fuel : Nat) (v : Values) (u : List Nat) (rest : List (List Nat))
      (d s2 : Nat) (w : Values), Bounded v →
      u.filter (fun s => d ∈ vget v s) = [s2] →
      elimUnitsF (fuel + 1) v (u :: rest) d = some (true, w) →
      vget w s2 = {d}) := by
  refine ⟨?_, ?_, ?_⟩
  · intro v sq d hmem hcard
    have hcard0 : (vget (vset v sq ((vget v sq).erase d)) sq).card = 0 := by
      rw [vget_erase_self hmem, Finset.card_erase_of_mem hmem, hcard]
    have hsplit : propFuel v = (100 * totalCount v + 99) + 1 := by
      unfold propFuel
      omega
    unfold eliminate
    rw [hsplit, elimF_mem_card0 _ hmem hcard0]
    rfl
  · intro fuel v u rest d habs
    have hnil : u.filter (fun s => d ∈ vget v s) = [] := by
      apply List.filter_eq_nil_iff.2
      intro a ha
      simpa using habs a ha
    apply elimUnitsF_cons_none
    rw [hnil]
    rfl
  · intro fuel v u rest d s2 w hb hfilter hrun
    have hlen : (u.filter (fun s => d ∈ vget v s)).length = 1 := by
      rw [hfilter]
      rfl
    have hhead : (u.filter (fun s => d ∈ vget v s)).headD 0 = s2 := by
      rw [hfilter]
      rfl
    rw [elimUnitsF_cons_one fuel rest hlen, hhead] at hrun
    rcases andThen_eq_some_true hrun with ⟨v2, hre, hke⟩
    have hs2f : s2 ∈ u.filter (fun s => d ∈ vget v s) := by
      rw [hfilter]
      exact List.mem_singleton.2 rfl
    have hs2mem : d ∈ vget v s2 := by
      simpa using (List.mem_filter.1 hs2f).2
    have hv2 : vget v2 s2 = {d} := assign_member_singleton hb hs2mem hre
    have hsub : sub1 w v2 := (prop_sub1 fuel).2.2.2.2 _ _ _ _ _ hke
    have hne : vget w s2 ≠ ∅ := by
      apply (prop_nonempty fuel).2.2.2.2 _ _ _ _ hke s2
      rw [hv2]
      exact Finset.singleton_ne_empty d
    have hss : vget w s2 ⊆ {d} := by
      rw [← hv2]
      exact hsub.2 s2
    rcases Finset.subset_singleton_iff.1 hss with h0 | h1
    · exact absurd h0 hne
    · exact h1

/-- Witness for C5 at concrete boards: a last-candidate removal fails; a
unit with no place for a digit fails; a unit with exactly one place gets
the digit pinned there. -/
theorem claim_C5_witness :
    ((5 : Nat) ∈ vget [({5} : Digits)] 0 ∧ (vget [({5} : Digits)] 0).card = 1 ∧
      eliminate [({5} : Digits)] 0 5 =
        (false, vset [({5} : Digits)] 0 ((vget [({5} : Digits)] 0).erase 5))) ∧
    ((∀ s ∈ ([0] : List Nat), (1 : Nat) ∉ vget [(∅ : Digits)] s) ∧
      elimUnitsF (0 + 1) [(∅ : Digits)] [[0]] 1 = some (false, [(∅ : Digits)])) ∧
    (Bounded [({5} : Digits)] ∧
      ([0] : List Nat).filter (fun s => (5 : Nat) ∈ vget [({5} : Digits)] s) = [0] ∧
      elimUnitsF (20 + 1) [({5} : Digits)] [[0]] 5 = some (true, [({5} : Digits)]) ∧
      vget [({5} : Digits)] 0 = {5}) := by
  refine ⟨⟨by decide, by decide, ?_⟩, ⟨by decide, ?_⟩,
    ⟨by unfold Bounded; decide, by decide, by decide, ?_⟩⟩
  · exact claim_C5_contradictions.1 [({5} : Digits)] 0 5 (by decide) (by decide)
  · exact claim_C5_contradictions.2.1 0 [(∅ : Digits)] [0] [] 1 (by decide)
  · exact claim_C5_contradictions.2.2 20 [({5} : Digits)] [0] [] 5 0 [({5} : Digits)]
      (by unfold Bounded; decide) (by decide) (by decide)

theorem newSingleton_vacuous {v : Values} :
    ∀ s e, (vget v s).card ≠ 1 → vget v s = {e} → ∀ p ∈ peersOf s, e ∉ vget v p := by
  intro s e hnew hsing
  exact absurd (by rw [hsing]; exact Finset.card_singleton e) hnew

theorem newSingleton_comp {v vmid w : Values}
    (H1 : ∀ s e, (vget v s).card ≠ 1 → vget vmid s = {e} → ∀ p ∈ peersOf s, e ∉ vget vmid p)
    (H2 : ∀ s e, (vget vmid s).card ≠ 1 → vget w s = {e} → ∀ p ∈ peersOf s, e ∉ vget w p)
    (M2 : sub1 w vmid) :
    ∀ s e, (vget v s).card ≠ 1 → vget w s = {e} → ∀ p ∈ peersOf s, e ∉ vget w p := by
  intro s e hnew hsing p hp
  by_cases hmid : (vget vmid s).card = 1
  · obtain ⟨e1, he1⟩ := Finset.card_eq_one.1 hmid
    have hee : e = e1 := by
      have hmem : e ∈ vget vmid s := M2.2 s (by rw [hsing]; exact Finset.mem_singleton_self e)
      rw [he1] at hmem
      exact Finset.mem_singleton.1 hmem
    rw [← hee] at he1
    exact not_mem_of_sub1 M2 (H1 s e hnew he1 p hp)
  · exact H2 s e hmid hsing p hp

/-- A square that becomes a singleton during a successful propagation call
has the singleton's digit eliminated from all its peers by the end of the
call (the forced-singleton branch of `eliminate` runs the peer loop, and
later steps only remove candidates). -/
theorem prop_newSingleton : ∀ fuel : Nat,
    (∀ v sq d w, assignF fuel v sq d = some (true, w) →
      ∀ s e, (vget v s).card ≠ 1 → vget w s = {e} → ∀ p ∈ peersOf s, e ∉ vget w p) ∧
    (∀ v sq d ds w, assignLoopF fuel v sq d ds = some (true, w) →
      ∀ s e, (vget v s).card ≠ 1 → vget w s = {e} → ∀ p ∈ peersOf s, e ∉ vget w p) ∧
    (∀ v sq d w, elimF fuel v sq d = some (true, w) →
      ∀ s e, (vget v s).card ≠ 1 → vget w s = {e} → ∀ p ∈ peersOf s, e ∉ vget w p) ∧
    (∀ v ps rem w, elimPeersF fuel v ps rem = some (true, w) →
      ∀ s e, (vget v s).card ≠ 1 → vget w s = {e} → ∀ p ∈ peersOf s, e ∉ vget w p) ∧
    (∀ v us d w, elimUnitsF fuel v us d = some (true, w) →
      ∀ s e, (vget v s).card ≠ 1 → vget w s = {e} → ∀ p ∈ peersOf s, e ∉ vget w p) := by
  intro fuel
  induction fuel with
  | zero =>
    refine ⟨?_, ?_, ?_, ?_, ?_⟩
    · intro v sq d w h; simp [assignF] at h
    · intro v sq d ds w h; simp [assignLoopF] at h
    · intro v sq d w h; simp [elimF] at h
    · intro v ps rem w h; simp [elimPeersF] at h
    · intro v us d w h; simp [elimUnitsF] at h
  | succ f ih =>
    obtain ⟨ihA, ihL, ihE, ihP, ihU⟩ := ih
    refine ⟨?_, ?_, ?_, ?_, ?_⟩
    · intro v sq d w h
      rw [assignF_succ] at h
      exact ihL _ _ _ _ _ h
    · intro v sq d ds w h
      cases ds with
      | nil =>
        rw [assignLoopF_nil] at h
        rcases some_pair_inj h with ⟨_, hv⟩
        subst hv
        exact newSingleton_vacuous
      | cons e0 es =>
        by_cases hc : e0 ∈ vget v sq ∧ e0 ≠ d
        · rw [assignLoopF_cons_mem f es hc] at h
          rcases andThen_eq_some_true h with ⟨v2, hre, hke⟩
          exact newSingleton_comp (ihE _ _ _ _ hre) (ihL _ _ _ _ _ hke)
            ((prop_sub1 f).2.1 _ _ _ _ _ _ hke)
        · rw [assignLoopF_cons_skip f es hc] at h
          exact ihL _ _ _ _ _ h
    · intro v sq d w h
      by_cases hmem : d ∈ vget v sq
      · by_cases h0 : (vget (vset v sq ((vget v sq).erase d)) sq).card = 0
        · rw [elimF_mem_card0 f hmem h0] at h
          rcases some_pair_inj h with ⟨hb, _⟩
          cases hb
        · by_cases h1 : (vget (vset v sq ((vget v sq).erase d)) sq).card = 1
          · rw [elimF_mem_card1 f hmem h1] at h
            rcases andThen_eq_some_true h with ⟨vp, hre, hke⟩
            obtain ⟨a, ha⟩ := Finset.card_eq_one.1 h1
            have hrem : singleMemberDigit (vget (vset v sq ((vget v sq).erase d)) sq) = a := by
              rw [ha, singleMemberDigit_singleton]
            rw [hrem] at hre
            have hsubp : sub1 vp (vset v sq ((vget v sq).erase d)) :=
              (prop_sub1 f).2.2.2.1 _ _ _ _ _ hre
            have Hcomb : ∀ s e, (vget v s).card ≠ 1 → vget vp s = {e} →
                ∀ p ∈ peersOf s, e ∉ vget vp p := by
              intro s e hnew hsing p hp
              by_cases hs : s = sq
              · subst hs
                have hee : e = a := by
                  have hmem2 : e ∈ vget (vset v s ((vget v s).erase d)) s :=
                    hsubp.2 s (by rw [hsing]; exact Finset.mem_singleton_self e)
                  rw [ha] at hmem2
                  exact Finset.mem_singleton.1 hmem2
                rw [hee]
                exact peersLoop_clears f hre p hp
              · have hunchanged : vget (vset v sq ((vget v sq).erase d)) s = vget v s :=
                  vget_vset_ne v hs _
                have hnew2 : (vget (vset v sq ((vget v sq).erase d)) s).card ≠ 1 := by
                  rw [hunchanged]
                  exact hnew
                exact ihP _ _ _ _ hre s e hnew2 hsing p hp
            exact newSingleton_comp Hcomb (ihU _ _ _ _ hke)
              ((prop_sub1 f).2.2.2.2 _ _ _ _ _ hke)
          · rw [elimF_mem_cardN f hmem h0 h1] at h
            have H1 : ∀ s e, (vget v s).card ≠ 1 →
                vget (vset v sq ((vget v sq).erase d)) s = {e} →
                ∀ p ∈ peersOf s, e ∉ vget (vset v sq ((vget v sq).erase d)) p := by
              intro s e hnew hsing p hp
              by_cases hs : s = sq
              · subst hs
                rw [hsing] at h1
                exact absurd (Finset.card_singleton e) h1
              · rw [vget_vset_ne v hs _] at hsing
                exact absurd (by rw [hsing]; exact Finset.card_singleton e) hnew
            exact newSingleton_comp H1 (ihU _ _ _ _ h)
              ((prop_sub1 f).2.2.2.2 _ _ _ _ _ h)
      · rw [elimF_notMem f hmem] at h
        rcases some_pair_inj h with ⟨_, hv⟩
        subst hv
        exact newSingleton_vacuous
    · intro v ps rem w h
      cases ps with
      | nil =>
        rw [elimPeersF_nil] at h
        rcases some_pair_inj h with ⟨_, hv⟩
        subst hv
        exact newSingleton_vacuous
      | cons p0 rest =>
        rw [elimPeersF_cons] at h
        rcases andThen_eq_some_true h with ⟨v2, hre, hke⟩
        exact newSingleton_comp (ihE _ _ _ _ hre) (ihP _ _ _ _ hke)
          ((prop_sub1 f).2.2.2.1 _ _ _ _ _ hke)
    · intro v us d w h
      cases us with
      | nil =>
        rw [elimUnitsF_nil] at h
        rcases some_pair_inj h with ⟨_, hv⟩
        subst hv
        exact newSingleton_vacuous
      | cons u rest =>
        by_cases hl0 : (u.filter (fun s => d ∈ vget v s)).length = 0
        · rw [elimUnitsF_cons_none f rest hl0] at h
          rcases some_pair_inj h with ⟨hb, _⟩
          cases hb
        · by_cases hl1 : (u.filter (fun s => d ∈ vget v s)).length = 1
          · rw [elimUnitsF_cons_one f rest hl1] at h
            rcases andThen_eq_some_true h with ⟨v2, hre, hke⟩
            exact newSingleton_comp (ihA _ _ _ _ hre) (ihU _ _ _ _ hke)
              ((prop_sub1 f).2.2.2.2 _ _ _ _ _ hke)
          · rw [elimUnitsF_cons_many f rest hl0 hl1] at h
            exact ihU _ _ _ _ h

/-- Counterexample to C1 as stated: on a well-formed board where square 20
already holds exactly `{5}` but its peers still admit 5, `assign` returns
true without touching the board (the elimination loop finds nothing to
remove, so the forced-singleton peer sweep never runs), leaving digit 5 in
every peer of square 20. -/
theorem claim_C1_counterexample :
    ¬ (∀ (v : Values) (sq d : Nat) (w : Values), sq < 81 → 1 ≤ d → d ≤ 9 →
        assign v sq d = (true, w) →
        (vget w sq).card = 1 ∧ vget w sq = {d} ∧ ∀ p ∈ peersOf sq, d ∉ vget w p) := by
  intro hclaim
  have h := hclaim (vset emptyBoard 20 {5}) 20 5 (vset emptyBoard 20 {5})
    (by decide) (by decide) (by decide) (by decide)
  exact h.2.2 19 (by decide) (by decide)

/-- C1 (amended): on a board satisfying the candidate-set invariant, if
`d` is among square `sq`'s candidates and `sq` has at least two
candidates, then a successful `assign(v, sq, d)` leaves `sq` with exactly
the single candidate `d` and removes `d` from every peer of `sq`. -/
theorem claim_C1_amended : ∀ (v : Values) (sq d : Nat) (w : Values),
    Bounded v → d ∈ vget v sq → 2 ≤ (vget v sq).card →
    assign v sq d = (true, w) →
    (vget w sq).card = 1 ∧ vget w sq = {d} ∧ ∀ p ∈ peersOf sq, d ∉ vget w p := by
  intro v sq d w hb hmem hcard hassign
  have hF : assignF (propFuel v) v sq d = some (true, w) := by
    rw [assignF_eq_some_assign, hassign]
  have hsing : vget w sq = {d} := assign_member_singleton hb hmem hF
  refine ⟨by rw [hsing]; exact Finset.card_singleton d, hsing, ?_⟩
  intro p hp
  exact (prop_newSingleton (propFuel v)).1 _ _ _ _ hF sq d (by omega) hsing p hp

/-- Witness for C1 (amended) at a concrete board: every square holds
`{6,7}` except square 20, which holds `{5,6}`; assigning 5 there succeeds
and pins square 20 to `{5}` with 5 absent from all peers. -/
theorem claim_C1_witness :
    Bounded (vset (List.replicate 81 ({6, 7} : Digits)) 20 {5, 6}) ∧
    (5 : Nat) ∈ vget (vset (List.replicate 81 ({6, 7} : Digits)) 20 {5, 6}) 20 ∧
    2 ≤ (vget (vset (List.replicate 81 ({6, 7} : Digits)) 20 {5, 6}) 20).card ∧
    ((vget (assign (vset (List.replicate 81 ({6, 7} : Digits)) 20 {5, 6}) 20 5).2 20).card = 1 ∧
      vget (assign (vset (List.replicate 81 ({6, 7} : Digits)) 20 {5, 6}) 20 5).2 20 = {5} ∧
      ∀ p ∈ peersOf 20,
        (5 : Nat) ∉ vget (assign (vset (List.replicate 81 ({6, 7} : Digits)) 20 {5, 6}) 20 5).2 p) := by
  have hb : Bounded (vset (List.replicate 81 ({6, 7} : Digits)) 20 {5, 6}) := by
    unfold Bounded
    decide
  have h1 : (assign (vset (List.replicate 81 ({6, 7} : Digits)) 20 {5, 6}) 20 5).1 = true := by
    decide
  have heq : assign (vset (List.replicate 81 ({6, 7} : Digits)) 20 {5, 6}) 20 5 =
      (true, (assign (vset (List.replicate 81 ({6, 7} : Digits)) 20 {5, 6}) 20 5).2) := by
    rw [← h1]
  exact ⟨hb, by decide, by decide,
    claim_C1_amended _ 20 5 _ hb (by decide) (by decide) heq⟩
